import Mathlib

/-!
# Verification of the job-search matching and sponsor-enrichment subsystem

Shallow embedding of the composite job-matching / sponsor-enrichment pipeline:

* `normalizeCompanyName`   — apps/api/src/lib/normalize.ts
* `searchLandingClubSponsors`, `getLandingClubSponsor` — apps/api/src/lib/landing-club.ts
* `isSponsorStale`, `findSponsorByNormalizedName`, `upsertSponsorFromLandingClub`,
  `getSponsorEnrichmentForCompany`, `enrichJobsWithSponsors`, `linkJobToSponsor`,
  `buildSponsorSummary` — apps/api/src/services/visa-service.ts
* `computeRecencyScore`, `computeSponsorScore`, `buildMatchReasons`, `applyScoring`,
  `searchJobsNoVector` — job-service (searchJobs and its scoring helpers)

Modelling conventions:

* JavaScript numbers are modelled as exact rationals (`ℚ`); timestamps
  (`Date.getTime()` / `Date.now()` values) as `Int` milliseconds since epoch.
* JS `null`/`undefined` optional values are `Option`; a field that may be
  *absent from the object entirely* (as opposed to set to `null`) is
  `Option (Option _)` with `none` = absent and `some none` = null.
* Persisted timestamp strings that the code parses with `new Date(s)` are
  modelled pre-parsed: `Option (Option Int)` with `some none` standing for a
  string whose parse yields `NaN`.
* The remote Landing Club HTTP request is an environment function
  `RemoteCtx.response : String → Except String (List LandingClubSponsor)`;
  `Except.error` models a thrown error (non-2xx response, network failure,
  malformed JSON body).  Thrown JS exceptions are `Except.error` throughout,
  and database state is threaded explicitly.
* `Rat.add`/`Rat.mul`/… are irreducible in this toolchain, so the embedding
  computes with `Rat.divInt`-based wrappers `qadd`/`qsub`/`qmul`/`qdiv`,
  proved below to agree with `+`/`-`/`*`/`/` on `ℚ`.
-/

/-! ## Computable rational arithmetic wrappers -/

/-- Computable addition on `ℚ` (agrees with `+`, see `qadd_eq`). -/
def qadd (a b : ℚ) : ℚ := Rat.divInt (a.num * b.den + b.num * a.den) (a.den * b.den)

/-- Computable multiplication on `ℚ` (agrees with `*`, see `qmul_eq`). -/
def qmul (a b : ℚ) : ℚ := Rat.divInt (a.num * b.num) (a.den * b.den)

/-- Computable inverse on `ℚ` (agrees with `⁻¹`, see `qinv_eq`). -/
def qinv (b : ℚ) : ℚ := Rat.divInt b.den b.num

/-- Computable subtraction on `ℚ` (agrees with `-`, see `qsub_eq`). -/
def qsub (a b : ℚ) : ℚ := Rat.divInt (a.num * b.den - b.num * a.den) (a.den * b.den)

/-- Computable division on `ℚ` (agrees with `/`, see `qdiv_eq`). -/
def qdiv (a b : ℚ) : ℚ := qmul a (qinv b)

/-- Computable floor of a rational (agrees with `Int.floor`, see `ratFloorZ_eq`). -/
def ratFloorZ (q : ℚ) : ℤ := q.num / q.den

/-- `Number(x.toFixed(3))` for the non-negative values produced by the scorer:
round to 3 decimal places, halves away from zero. -/
def round3 (x : ℚ) : ℚ :=
  Rat.divInt (ratFloorZ (qadd (qmul x (1000 : ℚ)) (Rat.divInt 1 2))) 1000

/-! ## Name Normalizer (apps/api/src/lib/normalize.ts)

`normalizeCompanyName` is
`name.trim().toLowerCase().replace(/[^a-z0-9]+/g, ' ').replace(/\s+/g, ' ').trim()`,
embedded over `List Char`.  `String.prototype.toLowerCase` is modelled on the
ASCII range `A-Z` (non-ASCII letters are dropped to a space by the next step
either way, which keeps every theorem below about the full char set). -/

/-- The JavaScript whitespace class (`\s`, also used by `trim`). -/
def isJsWs (c : Char) : Bool :=
  c = ' ' || c = Char.ofNat 9 || c = Char.ofNat 10 || c = Char.ofNat 11 ||
  c = Char.ofNat 12 || c = Char.ofNat 13 || c = Char.ofNat 0xa0 ||
  c = Char.ofNat 0x1680 || (Char.ofNat 0x2000 ≤ c && c ≤ Char.ofNat 0x200a) ||
  c = Char.ofNat 0x2028 || c = Char.ofNat 0x2029 || c = Char.ofNat 0x202f ||
  c = Char.ofNat 0x205f || c = Char.ofNat 0x3000 || c = Char.ofNat 0xfeff

/-- Character class `[a-z0-9]` of the normalizer regex. -/
def isLowerAlnum (c : Char) : Bool :=
  ('a' ≤ c && c ≤ 'z') || ('0' ≤ c && c ≤ '9')

/-- ASCII `toLowerCase` on one character. -/
def toLowerJS (c : Char) : Char :=
  if 'A' ≤ c && c ≤ 'Z' then Char.ofNat (c.toNat + 32) else c

/-- `replace(/[cls]+/g, r)`: every maximal run of characters satisfying `p`
becomes the single character `r`.  The flag records whether the previous
input character was part of a run. -/
def collapseRuns (p : Char → Bool) (r : Char) : Bool → List Char → List Char
  | _, [] => []
  | true, c :: rest =>
    if p c then collapseRuns p r true rest
    else c :: collapseRuns p r false rest
  | false, c :: rest =>
    if p c then r :: collapseRuns p r true rest
    else c :: collapseRuns p r false rest

/-- `String.prototype.trim`, left half: drop leading JS whitespace. -/
def trimStartL (l : List Char) : List Char := l.dropWhile isJsWs

/-- `String.prototype.trim`: drop leading and trailing JS whitespace. -/
def trimL (l : List Char) : List Char :=
  ((trimStartL l).reverse.dropWhile isJsWs).reverse

/-- `normalizeCompanyName` over `List Char`:
`trim`, `toLowerCase`, `[^a-z0-9]+ → ' '`, `\s+ → ' '`, `trim`. -/
def normalizeChars (l : List Char) : List Char :=
  trimL (collapseRuns isJsWs ' ' false
    (collapseRuns (fun c => !(isLowerAlnum c)) ' ' false
      ((trimL l).map toLowerJS)))

/-- `normalizeCompanyName` from apps/api/src/lib/normalize.ts. -/
def normalizeCompanyName (name : String) : String :=
  ⟨normalizeChars name.data⟩

/-! ## Data model (db/schema.ts, lib/landing-club.ts, services/visa-service.ts) -/

/-- Cast `Int` timestamps into `ℚ` computably (agrees with `Int.cast`,
see `qofInt_eq`). -/
def qofInt (n : ℤ) : ℚ := Rat.divInt n 1

/-- `LandingClubUpdate` (lib/landing-club.ts). -/
structure LandingClubUpdate where
  summary : String
  occurredAt : Option String := none
deriving DecidableEq

/-- `LandingClubSponsor` (lib/landing-club.ts): one mapped candidate entry
from the remote sponsor provider. -/
structure LandingClubSponsor where
  id : String
  name : String
  normalizedName : String
  visaTypes : Option (List String) := none
  sponsorshipConfidence : Option Int := none
  lastYearSponsored : Option Int := none
  totalFilings : Option Int := none
  latestUpdate : Option LandingClubUpdate := none
deriving DecidableEq

/-- The metadata jsonb bag of a sponsor row, restricted to the two keys the
subsystem reads/writes.  `landingClubSyncedAt` is the stored ISO timestamp
pre-parsed: `none` = key absent, `some none` = present but unparsable
(`new Date(s).getTime()` is `NaN`), `some (some t)` = parses to `t` ms. -/
structure SponsorMetadata where
  landingClub : Option LandingClubSponsor := none
  landingClubSyncedAt : Option (Option Int) := none
deriving DecidableEq

/-- A `visaSponsors` table row (`VisaSponsorRecord` in visa-service.ts).
`metadata = none` also covers a jsonb value that is not an object, which
`extractMetadata` treats the same as absent. -/
structure VisaSponsorRecord where
  id : String
  companyName : String
  normalizedName : String
  aliases : List String := []
  sponsorshipTypes : Option (List String) := none
  lastYearSponsored : Option Int := none
  sponsorshipConfidence : Option Int := none
  notes : Option String := none
  source : Option String := none
  metadata : Option SponsorMetadata := none
deriving DecidableEq

/-- `SponsorEnrichment` (visa-service.ts). -/
structure SponsorEnrichment where
  sponsor : Option VisaSponsorRecord
  landingClub : Option LandingClubSponsor
deriving DecidableEq

/-- `SponsorSummary` (visa-service.ts). -/
structure SponsorSummary where
  id : String
  companyName : String
  sponsorshipConfidence : Option Int
  lastYearSponsored : Option Int
  visaTypes : Option (List String)
  latestUpdate : Option LandingClubUpdate
  totalFilings : Option Int
  source : Option String
deriving DecidableEq

/-- A `jobs` table row, restricted to the columns this subsystem reads or
writes. -/
structure JobsTableRow where
  id : String
  title : String := ""
  company : String := ""
  location : Option String := none
  description : Option String := none
  url : String := ""
  isRemote : Option Bool := none
  jobType : Option String := none
  source : Option String := none
  scrapedAt : Option Int := none
  postedAt : Option Int := none
  isActive : Option Bool := some true
  visaStatus : Option String := none
  sponsorshipConfidence : Option Int := none
  visaNotes : Option String := none
  visaSponsorId : Option String := none
deriving DecidableEq

/-- Environment of the remote Landing Club provider.  `configured` is
`isLandingClubConfigured()` (the API key being set); `response q` is the
outcome of `landingClubRequest` + `mapSponsorEntry` for search query `q`:
`Except.error` models a thrown error (non-2xx, network failure, malformed
payload), `Except.ok` the mapped, null-filtered candidate list.  `now` is
`Date.now()`. -/
structure RemoteCtx where
  configured : Bool
  response : String → Except String (List LandingClubSponsor)
  now : Int

/-- Database state threaded through the service calls, plus an
instrumentation counter of issued remote HTTP requests.  `nextId` models the
uuid generator for inserted sponsor rows. -/
structure VisaDb where
  sponsors : List VisaSponsorRecord := []
  jobs : List JobsTableRow := []
  remoteCalls : Nat := 0
  nextId : Nat := 0
deriving DecidableEq

deriving instance DecidableEq for Except

/-! ## Landing Club client (apps/api/src/lib/landing-club.ts) -/

/-- `searchLandingClubSponsors`: empty query short-circuits to `[]` without a
request; otherwise one HTTP request is issued (counted in `remoteCalls`) and
each mapped entry's `normalizedName` is re-normalized from
`entry.normalizedName || entry.name`. -/
def searchLandingClubSponsors (ctx : RemoteCtx) (company : String) (st : VisaDb) :
    Except String (List LandingClubSponsor) × VisaDb :=
  if company = "" then (.ok [], st)
  else
    let st1 := { st with remoteCalls := st.remoteCalls + 1 }
    match ctx.response company with
    | .error e => (.error e, st1)
    | .ok entries =>
      (.ok (entries.map (fun e =>
        { e with normalizedName :=
            normalizeCompanyName (if e.normalizedName = "" then e.name else e.normalizedName) })),
       st1)

/-- `getLandingClubSponsor`: search by the normalized company name; pick the
exact normalized-name match if present, else the top-ranked candidate. -/
def getLandingClubSponsor (ctx : RemoteCtx) (company : String) (st : VisaDb) :
    Except String (Option LandingClubSponsor) × VisaDb :=
  let normalizedQuery := normalizeCompanyName company
  match searchLandingClubSponsors ctx normalizedQuery st with
  | (.error e, st1) => (.error e, st1)
  | (.ok results, st1) =>
    if results.isEmpty then (.ok none, st1)
    else
      match results.find? (fun r => normalizeCompanyName r.name = normalizedQuery) with
      | some exact => (.ok (some exact), st1)
      | none => (.ok results.head?, st1)

/-! ## Sponsor Resolver (apps/api/src/services/visa-service.ts) -/

/-- `REMOTE_SYNC_LIMIT_PER_REQUEST` (visa-service.ts line 11). -/
def REMOTE_SYNC_LIMIT_PER_REQUEST : Nat := 5

/-- `STALE_THRESHOLD_HOURS` (visa-service.ts line 12). -/
def STALE_THRESHOLD_HOURS : ℚ := 6

/-- `extractMetadata`: the metadata bag of a possibly-missing record. -/
def extractMetadata (record : Option VisaSponsorRecord) : Option SponsorMetadata :=
  record.bind (·.metadata)

/-- `isSponsorStale`: a record is stale when it is missing, has no cached
sync timestamp (or an unparsable one), or the cached payload is older than
`STALE_THRESHOLD_HOURS`. -/
def isSponsorStale (now : Int) (record : Option VisaSponsorRecord) : Bool :=
  match record with
  | none => true
  | some r =>
    match r.metadata with
    | none => true
    | some m =>
      match m.landingClubSyncedAt with
      | none => true
      | some none => true
      | some (some synced) =>
        decide (qdiv (qsub (qofInt now) (qofInt synced)) (qofInt (1000 * 60 * 60))
          > STALE_THRESHOLD_HOURS)

/-- `findSponsorByNormalizedName`: direct match on the unique normalized
name, then the secondary alias-array containment lookup. -/
def findSponsorByNormalizedName (sponsors : List VisaSponsorRecord)
    (normalizedName : String) : Option VisaSponsorRecord :=
  match sponsors.find? (fun r => r.normalizedName = normalizedName) with
  | some direct => some direct
  | none => sponsors.find? (fun r => r.aliases.contains normalizedName)

/-- `dedupKeepFirst l` keeps the first occurrence of each element (the
iteration order of a JS `Set` built by insertion). -/
def dedupKeepFirst : List String → List String
  | [] => []
  | x :: xs => x :: dedupKeepFirst (xs.filter (fun y => y ≠ x))
termination_by l => l.length
decreasing_by
  simp only [List.length_cons]
  exact Nat.lt_succ_of_le (List.length_filter_le _ _)

/-- `mergeStringArrays`: union of the given arrays, dropping empty strings,
deduplicated in first-seen order. -/
def mergeStringArrays (values : List (Option (List String))) : List String :=
  dedupKeepFirst ((values.foldr (fun v acc => v.getD [] ++ acc) []).filter (fun s => s ≠ ""))

/-- `upsertSponsorFromLandingClub`: remote lookup keyed by the raw company
name, merge with any existing local record, persist via upsert keyed on the
normalized name.  Inserted rows get a generated id from `nextId`. -/
def upsertSponsorFromLandingClub (ctx : RemoteCtx) (companyName : String) (st : VisaDb) :
    Except String (Option SponsorEnrichment) × VisaDb :=
  if !ctx.configured then (.ok none, st)
  else
    match getLandingClubSponsor ctx companyName st with
    | (.error e, st1) => (.error e, st1)
    | (.ok none, st1) => (.ok none, st1)
    | (.ok (some landingClub), st1) =>
      let normalized := normalizeCompanyName companyName
      let existing := findSponsorByNormalizedName st1.sponsors normalized
      let existingMetadata := (extractMetadata existing).getD {}
      let mergedMetadata : SponsorMetadata :=
        { existingMetadata with
            landingClub := some landingClub,
            landingClubSyncedAt := some (some ctx.now) }
      let mergedSponsorshipTypes :=
        mergeStringArrays [landingClub.visaTypes, existing.bind (·.sponsorshipTypes)]
      let setFields : VisaSponsorRecord → VisaSponsorRecord := fun row =>
        { row with
            companyName := landingClub.name
            aliases := (existing.map (·.aliases)).getD []
            sponsorshipTypes :=
              if mergedSponsorshipTypes.isEmpty then none else some mergedSponsorshipTypes
            lastYearSponsored :=
              (landingClub.lastYearSponsored).orElse (fun _ => existing.bind (·.lastYearSponsored))
            sponsorshipConfidence :=
              some ((landingClub.sponsorshipConfidence).getD
                ((existing.bind (·.sponsorshipConfidence)).getD 50))
            notes :=
              (landingClub.latestUpdate.map (·.summary)).orElse (fun _ => existing.bind (·.notes))
            source := some "landing_club"
            metadata := some mergedMetadata }
      match st1.sponsors.find? (fun r => r.normalizedName = normalized) with
      | some conflictRow =>
        let record := setFields conflictRow
        (.ok (some ⟨some record, some landingClub⟩),
         { st1 with sponsors :=
             st1.sponsors.map (fun r => if r.normalizedName = normalized then record else r) })
      | none =>
        let record := setFields
          { id := "gen-" ++ toString st1.nextId, companyName := landingClub.name,
            normalizedName := normalized }
        (.ok (some ⟨some record, some landingClub⟩),
         { st1 with sponsors := st1.sponsors ++ [record], nextId := st1.nextId + 1 })

/-- `getSponsorEnrichmentForCompany`: the Sponsor Resolver. -/
def getSponsorEnrichmentForCompany (ctx : RemoteCtx) (companyName : String) (st : VisaDb) :
    Except String SponsorEnrichment × VisaDb :=
  let normalized := normalizeCompanyName companyName
  let sponsorRecord := findSponsorByNormalizedName st.sponsors normalized
  let metadata := extractMetadata sponsorRecord
  if sponsorRecord.isSome && !(isSponsorStale ctx.now sponsorRecord) then
    (.ok ⟨sponsorRecord, metadata.bind (·.landingClub)⟩, st)
  else if sponsorRecord.isSome && (metadata.bind (·.landingClub)).isSome && !ctx.configured then
    (.ok ⟨sponsorRecord, metadata.bind (·.landingClub)⟩, st)
  else
    match upsertSponsorFromLandingClub ctx companyName st with
    | (.error e, st1) => (.error e, st1)
    | (.ok (some synced), st1) => (.ok synced, st1)
    | (.ok none, st1) =>
      if sponsorRecord.isSome then
        (.ok ⟨sponsorRecord, metadata.bind (·.landingClub)⟩, st1)
      else
        (.ok ⟨none, none⟩, st1)

/-- `buildSponsorSummary`: project a resolved record / remote payload into
the lightweight summary attached to postings. -/
def buildSponsorSummary (record : Option VisaSponsorRecord)
    (landingClub : Option LandingClubSponsor) : Option SponsorSummary :=
  if record.isNone && landingClub.isNone then none
  else
    let metadata := extractMetadata record
    let lc := landingClub.orElse (fun _ => metadata.bind (·.landingClub))
    some
      { id := (record.map (·.id)).getD
          ((lc.map (·.id)).getD (normalizeCompanyName ((lc.map (·.name)).getD "")))
        companyName := (record.map (·.companyName)).getD ((lc.map (·.name)).getD "")
        sponsorshipConfidence :=
          (record.bind (·.sponsorshipConfidence)).orElse (fun _ => lc.bind (·.sponsorshipConfidence))
        lastYearSponsored :=
          (record.bind (·.lastYearSponsored)).orElse (fun _ => lc.bind (·.lastYearSponsored))
        visaTypes := (record.bind (·.sponsorshipTypes)).orElse (fun _ => lc.bind (·.visaTypes))
        latestUpdate := lc.bind (·.latestUpdate)
        totalFilings := lc.bind (·.totalFilings)
        source := (record.bind (·.source)).orElse
          (fun _ => if lc.isSome then some "landing_club" else none) }

/-! ## Job Enricher (visa-service.ts, `enrichJobsWithSponsors`) -/

/-- A row passed through enrichment (`T extends JobSearchRow`): the fields
`enrichJobsWithSponsors` reads (`id`, `company`), the `visaSponsor` field it
attaches (`none` = absent from the object, `some none` = set to null), and
the row's remaining fields `rest`. -/
structure JobRow (α : Type) where
  id : String
  company : String
  visaSponsor : Option (Option SponsorSummary) := none
  rest : α
deriving DecidableEq

/-- Append job `j` to the group keyed `key`, preserving JS `Map` insertion
order (new keys go to the back). -/
def insertGroup {α : Type} (key : String) (j : JobRow α) :
    List (String × List (JobRow α)) → List (String × List (JobRow α))
  | [] => [(key, [j])]
  | (k, js) :: t =>
    if k = key then (k, js ++ [j]) :: t else (k, js) :: insertGroup key j t

/-- Group rows by normalized company name, skipping rows whose company is
empty or normalizes to the empty string. -/
def groupByNormalized {α : Type} (rows : List (JobRow α)) :
    List (String × List (JobRow α)) :=
  rows.foldl
    (fun acc j =>
      if j.company = "" then acc
      else
        let n := normalizeCompanyName j.company
        if n = "" then acc else insertGroup n j acc)
    []

/-- JS `Map.set`: overwrite in place or append a fresh key at the back. -/
def setAssoc (m : List (String × VisaSponsorRecord)) (k : String) (v : VisaSponsorRecord) :
    List (String × VisaSponsorRecord) :=
  if m.any (fun p => p.1 = k) then m.map (fun p => if p.1 = k then (k, v) else p)
  else m ++ [(k, v)]

/-- JS `Map.get` on an assoc list written by appends: the last write wins. -/
def getAssoc {β : Type} (m : List (String × β)) (k : String) : Option β :=
  (m.reverse.find? (fun p => p.1 = k)).map (·.2)

/-- The enrichment loop over company groups: carries the bulk-fetched
sponsor map, the remaining remote-call budget, and the accumulated
`(job id, sponsor summary)` assignments. -/
def enrichLoop {α : Type} (ctx : RemoteCtx) :
    List (String × List (JobRow α)) → List (String × VisaSponsorRecord) → Nat →
    List (String × Option SponsorSummary) → VisaDb →
    Except String (List (String × Option SponsorSummary)) × VisaDb
  | [], _, _, acc, st => (.ok acc, st)
  | (normalized, jobsForCompany) :: restGroups, sponsorsBy, budget, acc, st =>
    let sponsorRecord := getAssoc sponsorsBy normalized
    let needsRemote :=
      (sponsorRecord.isNone || isSponsorStale ctx.now sponsorRecord) &&
      ctx.configured && decide (budget > 0)
    if needsRemote then
      match upsertSponsorFromLandingClub ctx
          ((jobsForCompany.head?.map (·.company)).getD "") st with
      | (.error e, st1) => (.error e, st1)
      | (.ok synced, st1) =>
        let sponsorRecord1 :=
          if (synced.bind (·.sponsor)).isSome then synced.bind (·.sponsor) else sponsorRecord
        let sponsorsBy1 :=
          match synced.bind (·.sponsor) with
          | some rec1 => setAssoc sponsorsBy normalized rec1
          | none => sponsorsBy
        let metadata := extractMetadata sponsorRecord1
        let summary := buildSponsorSummary sponsorRecord1 (metadata.bind (·.landingClub))
        enrichLoop ctx restGroups sponsorsBy1 (budget - 1)
          (acc ++ jobsForCompany.map (fun j => (j.id, summary))) st1
    else
      let metadata := extractMetadata sponsorRecord
      let summary := buildSponsorSummary sponsorRecord (metadata.bind (·.landingClub))
      enrichLoop ctx restGroups sponsorsBy budget
        (acc ++ jobsForCompany.map (fun j => (j.id, summary))) st

/-- `enrichJobsWithSponsors`: group by normalized company, bulk-fetch local
sponsor rows, resolve each group under the per-request remote budget, and
attach a `visaSponsor` summary (null when nothing was found) to every row. -/
def enrichJobsWithSponsors {α : Type} (ctx : RemoteCtx) (jobRows : List (JobRow α))
    (st : VisaDb) : Except String (List (JobRow α)) × VisaDb :=
  if jobRows.isEmpty then (.ok jobRows, st)
  else
    let groups := groupByNormalized jobRows
    let normalizedNames := groups.map (·.1)
    if normalizedNames.isEmpty then (.ok jobRows, st)
    else
      let existingSponsors :=
        st.sponsors.filter (fun r => normalizedNames.contains r.normalizedName)
      let sponsorsByNormalized :=
        existingSponsors.foldl (fun m s => setAssoc m s.normalizedName s) []
      match enrichLoop ctx groups sponsorsByNormalized REMOTE_SYNC_LIMIT_PER_REQUEST [] st with
      | (.error e, st1) => (.error e, st1)
      | (.ok assignments, st1) =>
        (.ok (jobRows.map (fun j =>
          { j with visaSponsor := some ((getAssoc assignments j.id).getD none) })), st1)

/-- `linkJobToSponsor`: resolve the company and, when a sponsor record came
back, update the job row's sponsor link, confidence, visa status and notes.
The update's visa status is `statusFromConfidence` of the sponsor's
confidence. -/
def statusFromConfidence (confidence : Option Int) : String :=
  match confidence with
  | none => "unknown"
  | some c => if c = 0 then "unknown" else if c ≥ 75 then "sponsor_verified" else "likely_sponsor"

/-- `linkJobToSponsor` (visa-service.ts lines 307-326). -/
def linkJobToSponsor (ctx : RemoteCtx) (jobId : String) (companyName : String) (st : VisaDb) :
    Except String Unit × VisaDb :=
  match getSponsorEnrichmentForCompany ctx companyName st with
  | (.error e, st1) => (.error e, st1)
  | (.ok enrichment, st1) =>
    match enrichment.sponsor with
    | none => (.ok (), st1)
    | some sp =>
      (.ok (),
       { st1 with jobs := st1.jobs.map (fun j =>
           if j.id = jobId then
             { j with
                 visaSponsorId := some sp.id
                 sponsorshipConfidence := sp.sponsorshipConfidence
                 visaStatus := some (statusFromConfidence sp.sponsorshipConfidence)
                 visaNotes := sp.notes.orElse
                   (fun _ => enrichment.landingClub.bind (fun lc => lc.latestUpdate.map (·.summary))) }
           else j) })

/-! ## Match Scorer (job service: applyScoring and helpers) -/

/-- The decomposed score object `{similarity, recency, sponsorship}`. -/
structure ScoreDetails where
  similarity : ℚ
  recency : ℚ
  sponsorship : ℚ
deriving DecidableEq

/-- The fields of a `JobSearchResult` row other than `id`, `company` and the
attached `visaSponsor` summary. -/
structure JobSearchFields where
  title : String := ""
  location : Option String := none
  description : Option String := none
  url : String := ""
  isRemote : Option Bool := none
  jobType : Option String := none
  source : Option String := none
  scrapedAt : Option Int := none
  postedAt : Option Int := none
  visaStatus : Option String := none
  sponsorshipConfidence : Option Int := none
  visaNotes : Option String := none
  similarity : Option ℚ := none
  matchScore : Option ℚ := none
  scoreDetails : Option ScoreDetails := none
  matchReasons : Option (List String) := none
deriving DecidableEq

/-- `JobSearchResult` (job service). -/
abbrev JobSearchResult := JobRow JobSearchFields

/-- `computeRecencyScore`: step function of days since posting. -/
def computeRecencyScore (now : Int) (postedAt : Option Int) : ℚ :=
  match postedAt with
  | none => 0
  | some postedTime =>
    let diffInDays := qdiv (qsub (qofInt now) (qofInt postedTime))
      (qofInt (1000 * 60 * 60 * 24))
    if diffInDays ≤ 3 then 1
    else if diffInDays ≤ 7 then Rat.divInt 8 10
    else if diffInDays ≤ 14 then Rat.divInt 6 10
    else if diffInDays ≤ 30 then Rat.divInt 4 10
    else if diffInDays ≤ 60 then Rat.divInt 2 10
    else 0

/-- `computeSponsorScore`: prefers the enriched summary's confidence over
the posting's stored confidence (a null summary confidence falls through,
as `??` does), then walks the fixed threshold ladder. -/
def computeSponsorScore (visaStatus : Option String) (sponsorshipConfidence : Option Int)
    (visaSponsor : Option (Option SponsorSummary)) : ℚ :=
  let confidence :=
    (visaSponsor.join.bind (·.sponsorshipConfidence)).orElse (fun _ => sponsorshipConfidence)
  if visaStatus = some "sponsor_verified" then 1
  else if (confidence.map (fun c => decide (c ≥ 80))).getD false then Rat.divInt 9 10
  else if (confidence.map (fun c => decide (c ≥ 60))).getD false then Rat.divInt 6 10
  else if visaStatus = some "likely_sponsor" then Rat.divInt 5 10
  else if (confidence.map (fun c => decide (c ≥ 40))).getD false then Rat.divInt 3 10
  else 0

/-- `buildMatchReasons`: ordered, first-applicable-wins per category, with a
generic fallback so the list is never empty.  The sponsorship wording checks
the JS-truthiness of the summary's confidence (`0` counts as absent). -/
def buildMatchReasons (j : JobSearchResult) (scores : ScoreDetails) : List String :=
  let reasons :=
    (if Rat.divInt 75 100 ≤ scores.similarity then
      ["Strong alignment with your profile preferences"]
     else if Rat.divInt 5 10 ≤ scores.similarity then
      ["Good match to your stated interests"]
     else []) ++
    (if Rat.divInt 6 10 ≤ scores.recency then ["Recently posted opportunity"] else []) ++
    (if Rat.divInt 6 10 ≤ scores.sponsorship then
      [if j.rest.visaStatus = some "sponsor_verified" ∨
          ((j.visaSponsor.join.bind (·.sponsorshipConfidence)).map (fun c => decide (c ≠ 0))).getD false
       then "High confidence visa sponsorship"
       else "Likely to sponsor work visas"]
     else [])
  if reasons.isEmpty then ["Matches your filters"] else reasons

/-- `Math.max(0, Math.min(1, job.similarity))`, `0` when `similarity` is not
a number (the similarity clamp of `applyScoring`). -/
def clampSimilarity (similarity : Option ℚ) : ℚ :=
  match similarity with
  | some s => max 0 (min 1 s)
  | none => 0

/-- The per-posting body of `applyScoring`'s `map` (see `scorePosting`). -/
def scorePosting (now : Int) (j : JobSearchResult) : JobSearchResult :=
  let similarityScore := clampSimilarity j.rest.similarity
  let recencyScore := computeRecencyScore now j.rest.postedAt
  let sponsorshipScore :=
    computeSponsorScore j.rest.visaStatus j.rest.sponsorshipConfidence j.visaSponsor
  let matchScore :=
    qadd (qadd (qmul similarityScore (Rat.divInt 6 10))
               (qmul recencyScore (Rat.divInt 25 100)))
         (qmul sponsorshipScore (Rat.divInt 15 100))
  let scoreDetails : ScoreDetails :=
    ⟨round3 similarityScore, round3 recencyScore, round3 sponsorshipScore⟩
  let matchReasons := buildMatchReasons j scoreDetails
  { j with rest :=
      { j.rest with
          matchScore := some (round3 matchScore)
          scoreDetails := some scoreDetails
          matchReasons := some matchReasons } }

/-- The sort key `job.matchScore ?? 0` of `applyScoring`'s comparator. -/
def matchScoreKey (j : JobSearchResult) : ℚ := j.rest.matchScore.getD 0

/-- `applyScoring`: score every posting, then sort by `matchScore`
descending.  The JS engine's `Array.prototype.sort` is stable, so the sort
is modelled by the (stable) insertion sort with the same comparator. -/
def applyScoring (now : Int) (results : List JobSearchResult) : List JobSearchResult :=
  List.insertionSort (fun a b => matchScoreKey b ≤ matchScoreKey a)
    (results.map (scorePosting now))

/-! ## Similarity Search fallback path (job service, `searchJobs`) -/

/-- `ORDER BY scraped_at DESC` key comparison (Postgres `DESC` places nulls
first).  SQL promises nothing about ties; the model fixes the stable
refinement of this order. -/
def scrapedAtDescB (a b : JobsTableRow) : Bool :=
  match a.scrapedAt, b.scrapedAt with
  | none, _ => true
  | some _, none => false
  | some x, some y => decide (y ≤ x)

/-- The fallback SELECT's projection to a `JobSearchResult` row (no
`similarity` column). -/
def toJobSearchResult (j : JobsTableRow) : JobSearchResult :=
  { id := j.id
    company := j.company
    visaSponsor := none
    rest :=
      { title := j.title, location := j.location, description := j.description,
        url := j.url, isRemote := j.isRemote, jobType := j.jobType,
        source := j.source, scrapedAt := j.scrapedAt, postedAt := j.postedAt,
        visaStatus := j.visaStatus, sponsorshipConfidence := j.sponsorshipConfidence,
        visaNotes := j.visaNotes } }

/-- `searchJobs` on the no-query-vector path with all-default parameters
(`search({}, null)`: no description, no user profile): active rows only,
ordered reverse-chronologically by `scrapedAt`, limit 50 / offset 0, then
enrichment and scoring. -/
def searchJobsNoVector (ctx : RemoteCtx) (st : VisaDb) :
    Except String (List JobSearchResult) × VisaDb :=
  let filtered := st.jobs.filter (fun j => j.isActive = some true)
  let ordered := List.insertionSort (fun a b => scrapedAtDescB a b = true) filtered
  let rawResults := ((ordered.drop 0).take 50).map toJobSearchResult
  match enrichJobsWithSponsors ctx rawResults st with
  | (.error e, st1) => (.error e, st1)
  | (.ok enriched, st1) => (.ok (applyScoring ctx.now enriched), st1)

/-! ## Fixtures used by witnesses and counterexamples -/

/-- Drop the attached `visaSponsor` field of a row (used to state frame
properties of enrichment). -/
def stripVisaSponsor {α : Type} (j : JobRow α) : JobRow α := { j with visaSponsor := none }

/-- Scenario posting: similarity 0.9, posted right now, sponsor-verified. -/
def scenarioFreshJob : JobSearchResult :=
  { id := "j1", company := "acme",
    rest := { similarity := some (Rat.divInt 9 10), postedAt := some 0,
              visaStatus := some "sponsor_verified" } }

/-- A cached Landing Club payload for the fixture sponsor record. -/
def acmeLandingClub : LandingClubSponsor :=
  { id := "lc1", name := "Acme Inc", normalizedName := "acme inc" }

/-- A local sponsor record whose cached remote payload was synced at time 0. -/
def acmeSponsorRecord : VisaSponsorRecord :=
  { id := "s1", companyName := "Acme Inc", normalizedName := "acme inc",
    sponsorshipConfidence := some 90,
    metadata := some { landingClub := some acmeLandingClub,
                       landingClubSyncedAt := some (some 0) } }

/-- Remote provider configured but unreachable (every request throws), at a
time when `acmeSponsorRecord`'s cached payload is long stale. -/
def remoteDownCtx : RemoteCtx :=
  { configured := true, response := fun _ => .error "network down", now := 100 * 86400000 }

/-- Remote provider not configured. -/
def noRemoteCtx : RemoteCtx :=
  { configured := false, response := fun _ => .ok [], now := 0 }

/-- Remote provider configured and reachable but with no candidates. -/
def emptyRemoteCtx : RemoteCtx :=
  { configured := true, response := fun _ => .ok [], now := 100 * 86400000 }

/-- A batch row with an empty company name. -/
def emptyCompanyRow : JobRow Unit := { id := "j1", company := "", rest := () }

/-- A batch row with a usable company name. -/
def acmeRow : JobRow Unit := { id := "j2", company := "acme", rest := () }

/-- `emptyCompanyRow` with an attached null sponsor summary. -/
def enrichedEmptyCompanyRow : JobRow Unit := { emptyCompanyRow with visaSponsor := some none }

/-- `acmeRow` with an attached null sponsor summary. -/
def enrichedAcmeRow : JobRow Unit := { acmeRow with visaSponsor := some none }

/-- Seven rows with seven distinct companies (more than the remote budget). -/
def sevenCompanyRows : List (JobRow Unit) :=
  [{ id := "1", company := "c1", rest := () }, { id := "2", company := "c2", rest := () },
   { id := "3", company := "c3", rest := () }, { id := "4", company := "c4", rest := () },
   { id := "5", company := "c5", rest := () }, { id := "6", company := "c6", rest := () },
   { id := "7", company := "c7", rest := () }]

/-- Fallback-search fixture: scraped later but posted 100 days before `now`. -/
def chronoJobA : JobsTableRow :=
  { id := "a", company := "acme", scrapedAt := some 2000, postedAt := some 0 }

/-- Fallback-search fixture: scraped earlier but posted at `now`. -/
def chronoJobB : JobsTableRow :=
  { id := "b", company := "beta", scrapedAt := some 1000, postedAt := some (100 * 86400000) }

/-- Context for the fallback-search scenario: no remote provider, `now` 100
days after epoch. -/
def chronoCtx : RemoteCtx :=
  { configured := false, response := fun _ => .ok [], now := 100 * 86400000 }

/-- What the fallback search returns for `chronoJobB`: re-ranked first on
recency despite the older `scrapedAt`. -/
def scoredChronoB : JobSearchResult :=
  { id := "b", company := "beta", visaSponsor := some none,
    rest := { scrapedAt := some 1000, postedAt := some (100 * 86400000),
              similarity := none,
              matchScore := some (Rat.divInt 25 100),
              scoreDetails := some ⟨0, 1, 0⟩,
              matchReasons := some ["Recently posted opportunity"] } }

/-- What the fallback search returns for `chronoJobA`. -/
def scoredChronoA : JobSearchResult :=
  { id := "a", company := "acme", visaSponsor := some none,
    rest := { scrapedAt := some 2000, postedAt := some 0,
              similarity := none,
              matchScore := some 0,
              scoreDetails := some ⟨0, 0, 0⟩,
              matchReasons := some ["Matches your filters"] } }

/-! ## Agreement of the computable wrappers with the `ℚ` field operations -/

theorem qadd_eq (a b : ℚ) : qadd a b = a + b := by
  rw [qadd]
  conv_rhs => rw [← Rat.num_divInt_den a, ← Rat.num_divInt_den b]
  rw [Rat.divInt_add_divInt _ _ (by exact_mod_cast a.den_nz) (by exact_mod_cast b.den_nz)]

theorem qmul_eq (a b : ℚ) : qmul a b = a * b := by
  rw [qmul]
  conv_rhs => rw [← Rat.num_divInt_den a, ← Rat.num_divInt_den b]
  rw [Rat.divInt_mul_divInt _ _ (by exact_mod_cast a.den_nz) (by exact_mod_cast b.den_nz)]

theorem qinv_eq (b : ℚ) : qinv b = b⁻¹ := by
  rw [qinv, Rat.inv_def']

theorem qsub_eq (a b : ℚ) : qsub a b = a - b := by
  rw [qsub]
  conv_rhs => rw [← Rat.num_divInt_den a, ← Rat.num_divInt_den b]
  rw [Rat.divInt_sub_divInt _ _ (by exact_mod_cast a.den_nz) (by exact_mod_cast b.den_nz)]

theorem qdiv_eq (a b : ℚ) : qdiv a b = a / b := by
  rw [qdiv, qmul_eq, qinv_eq, div_eq_mul_inv]

theorem qofInt_eq (n : ℤ) : qofInt n = (n : ℚ) := by
  rw [qofInt, Rat.divInt_one]

theorem ratFloorZ_eq (q : ℚ) : ratFloorZ q = Int.floor q := by
  rw [ratFloorZ, Rat.floor_def]

theorem round3_eq (x : ℚ) : round3 x = ((Int.floor (x * 1000 + 1/2) : ℤ) : ℚ) / 1000 := by
  rw [round3, ratFloorZ_eq, qadd_eq, qmul_eq]
  simp only [Rat.divInt_eq_div]
  norm_num

/-- Rounding to 3 decimals keeps a value inside `[0, 1]`. -/
theorem round3_bounds {x : ℚ} (h0 : 0 ≤ x) (h1 : x ≤ 1) :
    0 ≤ round3 x ∧ round3 x ≤ 1 := by
  rw [round3_eq]
  constructor
  · apply div_nonneg _ (by norm_num)
    have : (0 : ℤ) ≤ Int.floor (x * 1000 + 1/2) := by
      apply Int.floor_nonneg.mpr
      nlinarith
    exact_mod_cast this
  · rw [div_le_one (by norm_num)]
    have hle : Int.floor (x * 1000 + 1/2) ≤ 1000 := by
      have hlt : x * 1000 + 1/2 < ((1001 : ℤ) : ℚ) := by push_cast; nlinarith
      have h2 := Int.floor_lt.mpr hlt
      exact Int.lt_add_one_iff.mp (by norm_num; exact h2)
    exact_mod_cast hle

/-! ## Name Normalizer lemmas -/

theorem collapseRuns_cons_true_pos {p : Char → Bool} {r c : Char} {l : List Char}
    (h : p c = true) : collapseRuns p r true (c :: l) = collapseRuns p r true l := by
  simp [collapseRuns, h]

theorem collapseRuns_cons_false_pos {p : Char → Bool} {r c : Char} {l : List Char}
    (h : p c = true) : collapseRuns p r false (c :: l) = r :: collapseRuns p r true l := by
  simp [collapseRuns, h]

theorem collapseRuns_cons_neg {p : Char → Bool} {r c : Char} {l : List Char} (b : Bool)
    (h : p c = false) : collapseRuns p r b (c :: l) = c :: collapseRuns p r false l := by
  cases b <;> simp [collapseRuns, h]

/-- Every character emitted by `collapseRuns` is the replacement character
or a kept input character outside the collapsed class. -/
theorem mem_collapseRuns {p : Char → Bool} {r c : Char} :
    ∀ {b : Bool} {l : List Char}, c ∈ collapseRuns p r b l →
      c = r ∨ (c ∈ l ∧ p c = false) := by
  intro b l
  induction l generalizing b with
  | nil => cases b <;> simp [collapseRuns]
  | cons a t ih =>
    intro h
    by_cases hpa : p a = true
    · cases b with
      | true =>
        rw [collapseRuns_cons_true_pos hpa] at h
        rcases ih h with h1 | ⟨h2, h3⟩
        · exact Or.inl h1
        · exact Or.inr ⟨List.mem_cons_of_mem _ h2, h3⟩
      | false =>
        rw [collapseRuns_cons_false_pos hpa] at h
        rcases List.mem_cons.mp h with rfl | h'
        · exact Or.inl rfl
        · rcases ih h' with h1 | ⟨h2, h3⟩
          · exact Or.inl h1
          · exact Or.inr ⟨List.mem_cons_of_mem _ h2, h3⟩
    · have hpa' : p a = false := by simpa using hpa
      rw [collapseRuns_cons_neg b hpa'] at h
      rcases List.mem_cons.mp h with rfl | h'
      · exact Or.inr ⟨List.mem_cons_self _ _, hpa'⟩
      · rcases ih h' with h1 | ⟨h2, h3⟩
        · exact Or.inl h1
        · exact Or.inr ⟨List.mem_cons_of_mem _ h2, h3⟩

/-- With the in-run flag set, the first emitted character is outside the
collapsed class. -/
theorem head_collapseRuns_true {p : Char → Bool} {r c : Char} :
    ∀ {l : List Char}, (collapseRuns p r true l).head? = some c → p c = false := by
  intro l
  induction l with
  | nil => simp [collapseRuns]
  | cons a t ih =>
    by_cases hpa : p a = true
    · rw [collapseRuns_cons_true_pos hpa]
      exact ih
    · have hpa' : p a = false := by simpa using hpa
      rw [collapseRuns_cons_neg true hpa', List.head?_cons]
      intro h
      cases h
      exact hpa'

/-- `collapseRuns` output never has two adjacent characters of the
collapsed class. -/
theorem chain'_collapseRuns (p : Char → Bool) (r : Char) :
    ∀ (b : Bool) (l : List Char),
      List.Chain' (fun a c => p a = false ∨ p c = false) (collapseRuns p r b l) := by
  intro b l
  induction l generalizing b with
  | nil => cases b <;> simp [collapseRuns]
  | cons a t ih =>
    by_cases hpa : p a = true
    · cases b with
      | true =>
        rw [collapseRuns_cons_true_pos hpa]
        exact ih true
      | false =>
        rw [collapseRuns_cons_false_pos hpa, List.chain'_cons']
        exact ⟨fun y hy => Or.inr (head_collapseRuns_true hy), ih true⟩
    · have hpa' : p a = false := by simpa using hpa
      rw [collapseRuns_cons_neg b hpa', List.chain'_cons']
      exact ⟨fun y hy => Or.inl hpa', ih false⟩

/-- If the head of `l` is outside the collapsed class, the in-run flag does
not matter. -/
theorem collapseRuns_true_eq_false {p : Char → Bool} {r : Char} {l : List Char}
    (h : ∀ c, l.head? = some c → p c = false) :
    collapseRuns p r true l = collapseRuns p r false l := by
  cases l with
  | nil => rfl
  | cons a t =>
    rw [collapseRuns_cons_neg true (h a rfl), collapseRuns_cons_neg false (h a rfl)]

/-- `collapseRuns` is the identity on lists in which every character of the
collapsed class is already the replacement character and no two adjacent
characters are in the class. -/
theorem collapseRuns_id {p : Char → Bool} {r : Char} :
    ∀ {l : List Char}, (∀ c ∈ l, p c = true → c = r) →
      List.Chain' (fun a c => p a = false ∨ p c = false) l →
      collapseRuns p r false l = l := by
  intro l
  induction l with
  | nil => intro _ _; rfl
  | cons a t ih =>
    intro hmem hchain
    rw [List.chain'_cons'] at hchain
    by_cases hpa : p a = true
    · have ha : a = r := hmem a (List.mem_cons_self _ _) hpa
      have hhead : ∀ c, t.head? = some c → p c = false := by
        intro c hc
        rcases hchain.1 c hc with h1 | h1
        · rw [hpa] at h1; cases h1
        · exact h1
      rw [collapseRuns_cons_false_pos hpa, collapseRuns_true_eq_false hhead,
        ih (fun c hc hpc => hmem c (List.mem_cons_of_mem _ hc) hpc) hchain.2, ha]
    · have hpa' : p a = false := by simpa using hpa
      rw [collapseRuns_cons_neg false hpa',
        ih (fun c hc hpc => hmem c (List.mem_cons_of_mem _ hc) hpc) hchain.2]

theorem head_dropWhile {p : Char → Bool} {c : Char} :
    ∀ {l : List Char}, (l.dropWhile p).head? = some c → p c = false := by
  intro l
  induction l with
  | nil => simp
  | cons a t ih =>
    by_cases hpa : p a = true
    · rw [List.dropWhile_cons_of_pos hpa]
      exact ih
    · have hpa' : p a = false := by simpa using hpa
      rw [List.dropWhile_cons_of_neg (by simp [hpa']), List.head?_cons]
      intro h
      cases h
      exact hpa'

theorem mem_dropWhile {p : Char → Bool} {c : Char} {l : List Char}
    (h : c ∈ l.dropWhile p) : c ∈ l :=
  ((List.dropWhile_suffix p).sublist).subset h

theorem dropWhile_eq_self_of_head {p : Char → Bool} {l : List Char}
    (h : ∀ c, l.head? = some c → p c = false) : l.dropWhile p = l := by
  cases l with
  | nil => rfl
  | cons a t => rw [List.dropWhile_cons_of_neg (by simp [h a rfl])]

theorem mem_trimL {c : Char} {l : List Char} (h : c ∈ trimL l) : c ∈ l := by
  rw [trimL, trimStartL] at h
  rw [List.mem_reverse] at h
  have h2 := mem_dropWhile h
  rw [List.mem_reverse] at h2
  exact mem_dropWhile h2

theorem chain'_trimL {R : Char → Char → Prop}
    {l : List Char} (h : List.Chain' R l) : List.Chain' R (trimL l) := by
  rw [trimL, trimStartL]
  have h1 : List.Chain' R (l.dropWhile isJsWs) := h.suffix (List.dropWhile_suffix _)
  have h2 : List.Chain' (flip R) ((l.dropWhile isJsWs).reverse) := by
    rw [List.chain'_reverse]
    exact h1.imp (fun a b hab => hab)
  have h3 : List.Chain' (flip R) (((l.dropWhile isJsWs).reverse).dropWhile isJsWs) :=
    h2.suffix (List.dropWhile_suffix _)
  rw [List.chain'_reverse]
  exact h3

theorem head_trimL {c : Char} : ∀ {l : List Char},
    (trimL l).head? = some c → isJsWs c = false := by
  intro l h
  rw [trimL, List.head?_reverse] at h
  have hYne : (trimStartL l).reverse.dropWhile isJsWs ≠ [] := by
    intro hnil
    rw [hnil] at h
    cases h
  obtain ⟨pre, hpre⟩ :=
    List.dropWhile_suffix (l := (trimStartL l).reverse) (p := isJsWs)
  have hZlast : ((trimStartL l).reverse).getLast? = some c := by
    rw [← hpre, List.getLast?_append_of_ne_nil pre hYne]
    exact h
  rw [List.getLast?_reverse, trimStartL] at hZlast
  exact head_dropWhile hZlast

theorem getLast_trimL {c : Char} {l : List Char}
    (h : (trimL l).getLast? = some c) : isJsWs c = false := by
  rw [trimL, List.getLast?_reverse] at h
  exact head_dropWhile h

theorem trimL_eq_self {l : List Char}
    (hhead : ∀ c, l.head? = some c → isJsWs c = false)
    (hlast : ∀ c, l.getLast? = some c → isJsWs c = false) : trimL l = l := by
  rw [trimL, trimStartL, dropWhile_eq_self_of_head hhead,
    dropWhile_eq_self_of_head (fun c hc => hlast c (by rwa [List.head?_reverse] at hc)),
    List.reverse_reverse]

theorem isLowerAlnum_not_ws {c : Char} (h : isLowerAlnum c = true) : isJsWs c = false := by
  rw [isLowerAlnum] at h
  simp only [Bool.or_eq_true, Bool.and_eq_true, decide_eq_true_eq] at h
  by_contra hws
  have hws' : isJsWs c = true := by simpa using hws
  rw [isJsWs] at hws'
  simp only [Bool.or_eq_true, Bool.and_eq_true, decide_eq_true_eq, or_assoc] at hws'
  rcases h with ⟨h1, h2⟩ | ⟨h1, h2⟩ <;>
    rcases hws' with rfl|rfl|rfl|rfl|rfl|rfl|rfl|rfl|⟨hr1, hr2⟩|rfl|rfl|rfl|rfl|rfl|rfl <;>
    first
      | exact absurd h1 (by decide)
      | exact absurd h2 (by decide)
      | exact absurd (le_trans hr1 h2) (by decide)

theorem toLowerJS_id {c : Char} (h : isLowerAlnum c = true ∨ c = ' ') : toLowerJS c = c := by
  rcases h with h | rfl
  · rw [isLowerAlnum] at h
    simp only [Bool.or_eq_true, Bool.and_eq_true, decide_eq_true_eq] at h
    rw [toLowerJS, if_neg]
    simp only [Bool.and_eq_true, decide_eq_true_eq, not_and]
    intro hA hZ
    rcases h with ⟨h1, h2⟩ | ⟨h1, h2⟩
    · exact absurd (le_trans h1 hZ) (by decide)
    · exact absurd (le_trans hA h2) (by decide)
  · decide

/-- The normalizer's output consists of lowercase alphanumerics and single
separating spaces; re-running any pass of the normalizer over it is the
identity. -/
theorem normalizeChars_idem (l : List Char) :
    normalizeChars (normalizeChars l) = normalizeChars l := by
  set x := (trimL l).map toLowerJS with hx
  set z1 := collapseRuns (fun c => !(isLowerAlnum c)) ' ' false x with hz1
  have hz1mem : ∀ c ∈ z1, isLowerAlnum c = true ∨ c = ' ' := by
    intro c hc
    rcases mem_collapseRuns hc with rfl | ⟨_, hpc⟩
    · exact Or.inr rfl
    · exact Or.inl (by simpa using hpc)
  have hz1chain :
      List.Chain' (fun a b => isLowerAlnum a = true ∨ isLowerAlnum b = true) z1 := by
    have hch := chain'_collapseRuns (fun c => !(isLowerAlnum c)) ' ' false x
    refine hch.imp (fun a b hab => ?_)
    rcases hab with h | h
    · exact Or.inl (by simpa using h)
    · exact Or.inr (by simpa using h)
  have hwsid : collapseRuns isJsWs ' ' false z1 = z1 := by
    apply collapseRuns_id
    · intro c hc hws
      rcases hz1mem c hc with h | rfl
      · rw [isLowerAlnum_not_ws h] at hws; cases hws
      · rfl
    · refine hz1chain.imp (fun a b hab => ?_)
      rcases hab with h | h
      · exact Or.inl (isLowerAlnum_not_ws h)
      · exact Or.inr (isLowerAlnum_not_ws h)
  have hnorm : normalizeChars l = trimL z1 := by
    rw [normalizeChars, ← hx, ← hz1, hwsid]
  have hrmem : ∀ c ∈ trimL z1, isLowerAlnum c = true ∨ c = ' ' :=
    fun c hc => hz1mem c (mem_trimL hc)
  have hrchain :
      List.Chain' (fun a b => isLowerAlnum a = true ∨ isLowerAlnum b = true) (trimL z1) :=
    chain'_trimL hz1chain
  have e1 : trimL (trimL z1) = trimL z1 :=
    trimL_eq_self (fun c hc => head_trimL hc) (fun c hc => getLast_trimL hc)
  have e2 : (trimL z1).map toLowerJS = trimL z1 := by
    rw [show (trimL z1).map toLowerJS = (trimL z1).map id from
      List.map_congr_left (fun c hc => by rw [toLowerJS_id (hrmem c hc), id]), List.map_id]
  have e3 : collapseRuns (fun c => !(isLowerAlnum c)) ' ' false (trimL z1) = trimL z1 := by
    apply collapseRuns_id
    · intro c hc hp
      rcases hrmem c hc with h | rfl
      · rw [h] at hp; cases hp
      · rfl
    · refine hrchain.imp (fun a b hab => ?_)
      rcases hab with h | h
      · exact Or.inl (by simp [h])
      · exact Or.inr (by simp [h])
  have e4 : collapseRuns isJsWs ' ' false (trimL z1) = trimL z1 := by
    apply collapseRuns_id
    · intro c hc hws
      rcases hrmem c hc with h | rfl
      · rw [isLowerAlnum_not_ws h] at hws; cases hws
      · rfl
    · refine hrchain.imp (fun a b hab => ?_)
      rcases hab with h | h
      · exact Or.inl (isLowerAlnum_not_ws h)
      · exact Or.inr (isLowerAlnum_not_ws h)
  rw [hnorm, normalizeChars, e1, e2, e3, e4, e1]

/-! ## Claim C7 -/

/-- C7: for every string `s`,
`normalizeCompanyName (normalizeCompanyName s) = normalizeCompanyName s` —
the Name Normalizer is idempotent. -/
theorem normalizeCompanyName_idempotent (s : String) :
    normalizeCompanyName (normalizeCompanyName s) = normalizeCompanyName s :=
  congrArg String.mk (normalizeChars_idem s.data)

/-! ## Scoring component lemmas -/

theorem clampSimilarity_bounds (similarity : Option ℚ) :
    0 ≤ clampSimilarity similarity ∧ clampSimilarity similarity ≤ 1 := by
  cases similarity with
  | none => exact ⟨by decide, by decide⟩
  | some s =>
    exact ⟨le_max_left 0 _, max_le (by norm_num) (min_le_left 1 s)⟩

theorem computeRecencyScore_bounds (now : Int) (postedAt : Option Int) :
    0 ≤ computeRecencyScore now postedAt ∧ computeRecencyScore now postedAt ≤ 1 := by
  cases postedAt with
  | none =>
    have h : computeRecencyScore now none = 0 := rfl
    rw [h]
    exact ⟨le_refl 0, by norm_num⟩
  | some t =>
    simp only [computeRecencyScore]
    split_ifs <;> constructor <;> decide

theorem computeSponsorScore_bounds (visaStatus : Option String)
    (sponsorshipConfidence : Option Int) (visaSponsor : Option (Option SponsorSummary)) :
    0 ≤ computeSponsorScore visaStatus sponsorshipConfidence visaSponsor ∧
      computeSponsorScore visaStatus sponsorshipConfidence visaSponsor ≤ 1 := by
  simp only [computeSponsorScore]
  split_ifs <;> constructor <;> decide

/-- `computeRecencyScore` of a posting published at the evaluation instant
is `1`. -/
theorem computeRecencyScore_same (now : Int) : computeRecencyScore now (some now) = 1 := by
  simp only [computeRecencyScore]
  rw [qdiv_eq, qsub_eq, qofInt_eq, qofInt_eq, sub_self, zero_div, if_pos (by norm_num)]

/-- `computeSponsorScore` of a sponsor-verified posting is `1`. -/
theorem computeSponsorScore_verified (sponsorshipConfidence : Option Int)
    (visaSponsor : Option (Option SponsorSummary)) :
    computeSponsorScore (some "sponsor_verified") sponsorshipConfidence visaSponsor = 1 := by
  simp [computeSponsorScore]

/-! ## Claim C5 -/

/-- C5: for every scored posting, `matchScore` equals
`0.6*similarity + 0.25*recency + 0.15*sponsorship` rounded to 3 decimal
places, where the similarity component is the raw similarity clamped to
`[0,1]` (`0` if absent); each component lies in `[0,1]`, and so does
`matchScore`. -/
theorem scorePosting_formula_and_bounds (now : Int) (j : JobSearchResult) :
    (scorePosting now j).rest.matchScore =
      some (round3 (clampSimilarity j.rest.similarity * (6/10 : ℚ) +
        computeRecencyScore now j.rest.postedAt * (25/100 : ℚ) +
        computeSponsorScore j.rest.visaStatus j.rest.sponsorshipConfidence j.visaSponsor *
          (15/100 : ℚ))) ∧
    (0 ≤ clampSimilarity j.rest.similarity ∧ clampSimilarity j.rest.similarity ≤ 1) ∧
    (0 ≤ computeRecencyScore now j.rest.postedAt ∧
      computeRecencyScore now j.rest.postedAt ≤ 1) ∧
    (0 ≤ computeSponsorScore j.rest.visaStatus j.rest.sponsorshipConfidence j.visaSponsor ∧
      computeSponsorScore j.rest.visaStatus j.rest.sponsorshipConfidence j.visaSponsor ≤ 1) ∧
    (0 ≤ (scorePosting now j).rest.matchScore.getD 0 ∧
      (scorePosting now j).rest.matchScore.getD 0 ≤ 1) := by
  have hs := clampSimilarity_bounds j.rest.similarity
  have hr := computeRecencyScore_bounds now j.rest.postedAt
  have hp := computeSponsorScore_bounds j.rest.visaStatus j.rest.sponsorshipConfidence j.visaSponsor
  have heq : (scorePosting now j).rest.matchScore =
      some (round3 (clampSimilarity j.rest.similarity * (6/10 : ℚ) +
        computeRecencyScore now j.rest.postedAt * (25/100 : ℚ) +
        computeSponsorScore j.rest.visaStatus j.rest.sponsorshipConfidence j.visaSponsor *
          (15/100 : ℚ))) := by
    show some (round3 (qadd (qadd
        (qmul (clampSimilarity j.rest.similarity) (Rat.divInt 6 10))
        (qmul (computeRecencyScore now j.rest.postedAt) (Rat.divInt 25 100)))
        (qmul (computeSponsorScore j.rest.visaStatus j.rest.sponsorshipConfidence j.visaSponsor)
          (Rat.divInt 15 100)))) = _
    rw [qadd_eq, qadd_eq, qmul_eq, qmul_eq, qmul_eq]
    norm_num [Rat.divInt_eq_div]
  have hF0 : 0 ≤ clampSimilarity j.rest.similarity * (6/10 : ℚ) +
      computeRecencyScore now j.rest.postedAt * (25/100 : ℚ) +
      computeSponsorScore j.rest.visaStatus j.rest.sponsorshipConfidence j.visaSponsor *
        (15/100 : ℚ) := by
    nlinarith [hs.1, hr.1, hp.1]
  have hF1 : clampSimilarity j.rest.similarity * (6/10 : ℚ) +
      computeRecencyScore now j.rest.postedAt * (25/100 : ℚ) +
      computeSponsorScore j.rest.visaStatus j.rest.sponsorshipConfidence j.visaSponsor *
        (15/100 : ℚ) ≤ 1 := by
    nlinarith [hs.2, hr.2, hp.2]
  have hb := round3_bounds hF0 hF1
  refine ⟨heq, hs, hr, hp, ?_⟩
  rw [heq]
  simpa using hb

/-! ## Claim C1 -/

/-- C1 counterexample: for the scenario posting (similarity 0.9, posted at
the evaluation instant, visa status sponsor-verified) the recency and
sponsorship components are both `1`, and the composite `matchScore` is
`0.94 = 0.6*0.9 + 0.25*1.0 + 0.15*1.0` — not `0.79` as the claim states
(the spec's arithmetic dropped the sponsorship term). -/
theorem scenarioFresh_matchScore_not_079 :
    (scorePosting 0 scenarioFreshJob).rest.scoreDetails =
      some ⟨Rat.divInt 9 10, 1, 1⟩ ∧
    (scorePosting 0 scenarioFreshJob).rest.matchScore = some (Rat.divInt 94 100) ∧
    (Rat.divInt 94 100 : ℚ) = (0.94 : ℚ) ∧
    ¬ (scorePosting 0 scenarioFreshJob).rest.matchScore = some (0.79 : ℚ) := by
  have h94 : (Rat.divInt 94 100 : ℚ) = (0.94 : ℚ) := by
    rw [Rat.divInt_eq_div]
    norm_num
  have h79 : (0.79 : ℚ) = Rat.divInt 79 100 := by
    rw [Rat.divInt_eq_div]
    norm_num
  refine ⟨by decide, by decide, h94, ?_⟩
  rw [h79]
  decide

/-- C1 amended: for a posting with similarity `0.9`, `postedAt` equal to the
evaluation instant (recency component `1.0`) and visa status
`"sponsor_verified"` (sponsorship component `1.0`), the composite
`matchScore` equals `0.6*0.9 + 0.25*1.0 + 0.15*1.0 = 0.94`. -/
theorem scenarioFresh_matchScore_amended (now : Int) (j : JobSearchResult)
    (hsim : j.rest.similarity = some (Rat.divInt 9 10))
    (hpost : j.rest.postedAt = some now)
    (hvisa : j.rest.visaStatus = some "sponsor_verified") :
    (scorePosting now j).rest.scoreDetails = some ⟨Rat.divInt 9 10, 1, 1⟩ ∧
    (scorePosting now j).rest.matchScore = some (0.94 : ℚ) := by
  have h94 : (0.94 : ℚ) = Rat.divInt 94 100 := by
    rw [Rat.divInt_eq_div]
    norm_num
  have hrec : computeRecencyScore now j.rest.postedAt = 1 := by
    rw [hpost]
    exact computeRecencyScore_same now
  have hspon : computeSponsorScore j.rest.visaStatus j.rest.sponsorshipConfidence
      j.visaSponsor = 1 := by
    rw [hvisa]
    exact computeSponsorScore_verified _ _
  constructor
  · show some (⟨round3 (clampSimilarity j.rest.similarity),
      round3 (computeRecencyScore now j.rest.postedAt),
      round3 (computeSponsorScore j.rest.visaStatus j.rest.sponsorshipConfidence
        j.visaSponsor)⟩ : ScoreDetails) = _
    rw [hsim, hrec, hspon]
    decide
  · show some (round3 (qadd (qadd
        (qmul (clampSimilarity j.rest.similarity) (Rat.divInt 6 10))
        (qmul (computeRecencyScore now j.rest.postedAt) (Rat.divInt 25 100)))
        (qmul (computeSponsorScore j.rest.visaStatus j.rest.sponsorshipConfidence
          j.visaSponsor) (Rat.divInt 15 100)))) = _
    rw [hsim, hrec, hspon, h94]
    decide

/-- C1 amended, witness: the hypotheses hold of `scenarioFreshJob` at
instant `0`, and the amended conclusion follows by the theorem. -/
theorem scenarioFresh_matchScore_amended_witness :
    scenarioFreshJob.rest.similarity = some (Rat.divInt 9 10) ∧
    scenarioFreshJob.rest.postedAt = some 0 ∧
    scenarioFreshJob.rest.visaStatus = some "sponsor_verified" ∧
    ((scorePosting 0 scenarioFreshJob).rest.scoreDetails = some ⟨Rat.divInt 9 10, 1, 1⟩ ∧
     (scorePosting 0 scenarioFreshJob).rest.matchScore = some (0.94 : ℚ)) :=
  ⟨rfl, rfl, rfl, scenarioFresh_matchScore_amended 0 scenarioFreshJob rfl rfl rfl⟩

/-! ## Claim C8 -/

/-- C8 counterexample: the Match Scorer reads the clock (`Date.now()`)
through `computeRecencyScore`, so scoring the same unchanged list at two
different instants yields different scores: for the scenario posting
(posted at instant 0), a run at instant 0 and a run 61 days later disagree.
The scorer is therefore not a pure function of its input list alone. -/
theorem applyScoring_two_runs_differ :
    applyScoring 0 [scenarioFreshJob] ≠ applyScoring (61 * 86400000) [scenarioFreshJob] := by
  decide

/-- `scorePosting` depends on the evaluation instant only through
`computeRecencyScore`. -/
theorem scorePosting_congr {now1 now2 : Int} {j : JobSearchResult}
    (h : computeRecencyScore now1 j.rest.postedAt = computeRecencyScore now2 j.rest.postedAt) :
    scorePosting now1 j = scorePosting now2 j := by
  simp only [scorePosting, h]

/-- C8 amended: the Match Scorer is deterministic in its input list and the
current clock reading: two runs over the same list at instants where every
posting falls in the same recency bucket (in particular, at the same
instant) produce identical scores, reasons and output order. -/
theorem applyScoring_deterministic (now1 now2 : Int) (results : List JobSearchResult)
    (h : ∀ j ∈ results,
      computeRecencyScore now1 j.rest.postedAt = computeRecencyScore now2 j.rest.postedAt) :
    applyScoring now1 results = applyScoring now2 results := by
  rw [applyScoring, applyScoring,
    List.map_congr_left (fun j hj => scorePosting_congr (h j hj))]

/-- C8 amended, witness: two runs 1 second apart over the scenario posting
satisfy the same-bucket hypothesis and coincide. -/
theorem applyScoring_deterministic_witness :
    (∀ j ∈ [scenarioFreshJob],
      computeRecencyScore 0 j.rest.postedAt = computeRecencyScore 1000 j.rest.postedAt) ∧
    applyScoring 0 [scenarioFreshJob] = applyScoring 1000 [scenarioFreshJob] :=
  ⟨by decide, applyScoring_deterministic 0 1000 [scenarioFreshJob] (by decide)⟩

/-! ## Sponsor Resolver lemmas -/

theorem upsert_not_configured {ctx : RemoteCtx} (st : VisaDb) (c : String)
    (h : ctx.configured = false) :
    upsertSponsorFromLandingClub ctx c st = (.ok none, st) := by
  simp [upsertSponsorFromLandingClub, h]

/-- A `getLandingClubSponsor` call with a non-empty normalized query issues
exactly one remote request, whatever the outcome. -/
theorem getLandingClubSponsor_remoteCalls (ctx : RemoteCtx) (c : String) (st : VisaDb)
    (hq : normalizeCompanyName c ≠ "") :
    ((getLandingClubSponsor ctx c st).2).remoteCalls = st.remoteCalls + 1 ∧
    ((getLandingClubSponsor ctx c st).2).sponsors = st.sponsors ∧
    ((getLandingClubSponsor ctx c st).2).jobs = st.jobs := by
  rw [getLandingClubSponsor, searchLandingClubSponsors, if_neg hq]
  rcases ctx.response (normalizeCompanyName c) with e | entries
  · exact ⟨rfl, rfl, rfl⟩
  · dsimp only
    split
    · exact ⟨rfl, rfl, rfl⟩
    · split <;> exact ⟨rfl, rfl, rfl⟩

/-- An `upsertSponsorFromLandingClub` call with the provider configured and
a non-empty normalized name issues exactly one remote request, whatever the
outcome. -/
theorem upsert_remoteCalls (ctx : RemoteCtx) (c : String) (st : VisaDb)
    (hconf : ctx.configured = true) (hq : normalizeCompanyName c ≠ "") :
    ((upsertSponsorFromLandingClub ctx c st).2).remoteCalls = st.remoteCalls + 1 := by
  rw [upsertSponsorFromLandingClub, hconf]
  simp only [Bool.not_true, Bool.false_eq_true, if_false]
  rcases hres : getLandingClubSponsor ctx c st with ⟨res, st1⟩
  have h1 := (getLandingClubSponsor_remoteCalls ctx c st hq).1
  rw [hres] at h1
  rcases res with e | opt
  · exact h1
  · rcases opt with _ | lc
    · exact h1
    · dsimp only
      split
      · exact h1
      · exact h1

/-- When the provider responds without candidates (or the query normalizes
to the empty string), `getLandingClubSponsor` returns no candidate and does
not touch the database. -/
theorem getLandingClubSponsor_ok_empty (ctx : RemoteCtx) (c : String) (st : VisaDb)
    (hresp : ctx.response (normalizeCompanyName c) = .ok []) :
    (getLandingClubSponsor ctx c st).1 = .ok none ∧
    ((getLandingClubSponsor ctx c st).2).sponsors = st.sponsors ∧
    ((getLandingClubSponsor ctx c st).2).jobs = st.jobs := by
  rw [getLandingClubSponsor, searchLandingClubSponsors]
  by_cases hq : normalizeCompanyName c = ""
  · rw [if_pos hq]
    exact ⟨rfl, rfl, rfl⟩
  · rw [if_neg hq, hresp]
    exact ⟨rfl, rfl, rfl⟩

/-- When the provider is unconfigured or responds without candidates, the
upsert is a no-op returning no enrichment. -/
theorem upsert_ok_none (ctx : RemoteCtx) (c : String) (st : VisaDb)
    (hcase : ctx.configured = false ∨ ctx.response (normalizeCompanyName c) = .ok []) :
    (upsertSponsorFromLandingClub ctx c st).1 = .ok none ∧
    ((upsertSponsorFromLandingClub ctx c st).2).sponsors = st.sponsors ∧
    ((upsertSponsorFromLandingClub ctx c st).2).jobs = st.jobs := by
  rcases hcase with hconf | hresp
  · rw [upsert_not_configured st c hconf]
    exact ⟨rfl, rfl, rfl⟩
  · rw [upsertSponsorFromLandingClub]
    by_cases hconf : ctx.configured
    · rw [hconf]
      simp only [Bool.not_true, Bool.false_eq_true, if_false]
      have hg := getLandingClubSponsor_ok_empty ctx c st hresp
      rcases hres : getLandingClubSponsor ctx c st with ⟨res, st1⟩
      rw [hres] at hg
      rcases res with e | opt
      · cases hg.1
      · rcases opt with _ | lc
        · exact ⟨rfl, hg.2.1, hg.2.2⟩
        · cases hg.1
    · have hconf' : ctx.configured = false := by simpa using hconf
      rw [hconf']
      exact ⟨rfl, rfl, rfl⟩

/-- When the provider throws, `upsertSponsorFromLandingClub` propagates the
thrown error. -/
theorem upsert_error (ctx : RemoteCtx) (c : String) (st : VisaDb) (e : String)
    (hconf : ctx.configured = true) (hq : normalizeCompanyName c ≠ "")
    (hresp : ctx.response (normalizeCompanyName c) = .error e) :
    (upsertSponsorFromLandingClub ctx c st).1 = .error e := by
  rw [upsertSponsorFromLandingClub, hconf]
  simp only [Bool.not_true, Bool.false_eq_true, if_false]
  rw [getLandingClubSponsor, searchLandingClubSponsors, if_neg hq, hresp]

/-! ## Claim C2 -/

/-- C2 counterexample: with the remote provider configured but down
(`response` throws) and a stale local record present, the resolver
propagates the thrown error to its caller instead of returning the existing
local record: there is no try/catch anywhere on the resolution path. -/
theorem resolver_error_reaches_caller :
    findSponsorByNormalizedName [acmeSponsorRecord] (normalizeCompanyName "Acme Inc") =
      some acmeSponsorRecord ∧
    (getSponsorEnrichmentForCompany remoteDownCtx "Acme Inc"
      { sponsors := [acmeSponsorRecord] }).1 = .error "network down" := by
  constructor
  · decide
  · decide

/-- C2 amended: when the remote provider is unconfigured, or reachable but
returning no candidates, the resolver falls back to the existing local
record (returned unchanged, with its cached payload) or to null, and leaves
the database untouched; a thrown remote-provider error, however, propagates
to the caller (there is no recovery on the resolution path). -/
theorem resolver_fallback_amended (ctx : RemoteCtx) (companyName : String) (st : VisaDb) :
    ((ctx.configured = false ∨ ctx.response (normalizeCompanyName companyName) = .ok []) →
      (getSponsorEnrichmentForCompany ctx companyName st).1 =
        .ok ⟨findSponsorByNormalizedName st.sponsors (normalizeCompanyName companyName),
          (extractMetadata (findSponsorByNormalizedName st.sponsors
            (normalizeCompanyName companyName))).bind (·.landingClub)⟩ ∧
      ((getSponsorEnrichmentForCompany ctx companyName st).2).sponsors = st.sponsors ∧
      ((getSponsorEnrichmentForCompany ctx companyName st).2).jobs = st.jobs) ∧
    (∀ e : String, ctx.configured = true →
      isSponsorStale ctx.now (findSponsorByNormalizedName st.sponsors
        (normalizeCompanyName companyName)) = true →
      normalizeCompanyName companyName ≠ "" →
      ctx.response (normalizeCompanyName companyName) = .error e →
      (getSponsorEnrichmentForCompany ctx companyName st).1 = .error e) := by
  constructor
  · intro hcase
    have hup := upsert_ok_none ctx companyName st hcase
    rcases hres : upsertSponsorFromLandingClub ctx companyName st with ⟨res, st1⟩
    rw [hres] at hup
    obtain ⟨hok, hsp, hjb⟩ := hup
    rcases res with e | opt
    · exact absurd hok (by simp)
    · rcases opt with _ | synced
      · simp only [getSponsorEnrichmentForCompany, hres]
        by_cases h1 : ((findSponsorByNormalizedName st.sponsors
            (normalizeCompanyName companyName)).isSome &&
            !isSponsorStale ctx.now (findSponsorByNormalizedName st.sponsors
              (normalizeCompanyName companyName))) = true
        · rw [if_pos h1]
          exact ⟨rfl, rfl, rfl⟩
        · rw [if_neg h1]
          by_cases h2 : ((findSponsorByNormalizedName st.sponsors
              (normalizeCompanyName companyName)).isSome &&
              ((extractMetadata (findSponsorByNormalizedName st.sponsors
                (normalizeCompanyName companyName))).bind (·.landingClub)).isSome &&
              !ctx.configured) = true
          · rw [if_pos h2]
            exact ⟨rfl, rfl, rfl⟩
          · rw [if_neg h2]
            by_cases hrec : (findSponsorByNormalizedName st.sponsors
                (normalizeCompanyName companyName)).isSome = true
            · rw [if_pos hrec]
              exact ⟨rfl, hsp, hjb⟩
            · rw [if_neg hrec]
              have hnone : findSponsorByNormalizedName st.sponsors
                  (normalizeCompanyName companyName) = none := by
                rcases h : findSponsorByNormalizedName st.sponsors
                    (normalizeCompanyName companyName) with _ | r
                · rfl
                · rw [h] at hrec; simp at hrec
              rw [hnone]
              exact ⟨rfl, hsp, hjb⟩
      · exact absurd hok (by simp)
  · intro e hconf hstale hq hresp
    have hup := upsert_error ctx companyName st e hconf hq hresp
    rcases hres : upsertSponsorFromLandingClub ctx companyName st with ⟨res, st1⟩
    rw [hres] at hup
    simp only [getSponsorEnrichmentForCompany, hstale, hconf, Bool.not_true, Bool.and_false,
      Bool.false_eq_true, if_false, hres]
    rcases res with e' | opt
    · cases hup
      rfl
    · exact absurd hup (by simp)

/-- C2 amended, witness: the unconfigured-provider fallback at a concrete
database with a local record, and the error propagation at a concrete
stale record with the provider down. -/
theorem resolver_fallback_amended_witness :
    (noRemoteCtx.configured = false ∨
      noRemoteCtx.response (normalizeCompanyName "Acme Inc") = .ok []) ∧
    ((getSponsorEnrichmentForCompany noRemoteCtx "Acme Inc"
        { sponsors := [acmeSponsorRecord] }).1 =
      .ok ⟨findSponsorByNormalizedName [acmeSponsorRecord] (normalizeCompanyName "Acme Inc"),
        (extractMetadata (findSponsorByNormalizedName [acmeSponsorRecord]
          (normalizeCompanyName "Acme Inc"))).bind (·.landingClub)⟩ ∧
      ((getSponsorEnrichmentForCompany noRemoteCtx "Acme Inc"
        { sponsors := [acmeSponsorRecord] }).2).sponsors = [acmeSponsorRecord] ∧
      ((getSponsorEnrichmentForCompany noRemoteCtx "Acme Inc"
        { sponsors := [acmeSponsorRecord] }).2).jobs = []) ∧
    (remoteDownCtx.configured = true ∧
     isSponsorStale remoteDownCtx.now (findSponsorByNormalizedName [acmeSponsorRecord]
       (normalizeCompanyName "Acme Inc")) = true ∧
     normalizeCompanyName "Acme Inc" ≠ "" ∧
     remoteDownCtx.response (normalizeCompanyName "Acme Inc") = .error "network down" ∧
     (getSponsorEnrichmentForCompany remoteDownCtx "Acme Inc"
       { sponsors := [acmeSponsorRecord] }).1 = .error "network down") :=
  ⟨Or.inl rfl,
   (resolver_fallback_amended noRemoteCtx "Acme Inc" { sponsors := [acmeSponsorRecord] }).1
     (Or.inl rfl),
   rfl, by decide, by decide, rfl,
   (resolver_fallback_amended remoteDownCtx "Acme Inc" { sponsors := [acmeSponsorRecord] }).2
     "network down" rfl (by decide) (by decide) rfl⟩

/-! ## Claim C4 -/

/-- C4: when a local record exists whose cached remote-sync timestamp is
inside the staleness window, the resolver returns it as-is without touching
the database or issuing any remote request; when the record is stale (or
its sync timestamp missing/unparsable, all covered by `isSponsorStale`) and
the provider is configured, exactly one remote re-fetch is attempted. -/
theorem resolver_staleness_gate (ctx : RemoteCtx) (companyName : String) (st : VisaDb) :
    (∀ r, findSponsorByNormalizedName st.sponsors (normalizeCompanyName companyName) = some r →
      isSponsorStale ctx.now (some r) = false →
      getSponsorEnrichmentForCompany ctx companyName st =
        (.ok ⟨some r, (extractMetadata (some r)).bind (·.landingClub)⟩, st)) ∧
    (∀ r, findSponsorByNormalizedName st.sponsors (normalizeCompanyName companyName) = some r →
      isSponsorStale ctx.now (some r) = true →
      ctx.configured = true →
      normalizeCompanyName companyName ≠ "" →
      ((getSponsorEnrichmentForCompany ctx companyName st).2).remoteCalls =
        st.remoteCalls + 1) := by
  constructor
  · intro r hrec hfresh
    simp [getSponsorEnrichmentForCompany, hrec, hfresh]
  · intro r hrec hstale hconf hq
    have hup := upsert_remoteCalls ctx companyName st hconf hq
    rcases hres : upsertSponsorFromLandingClub ctx companyName st with ⟨res, st1⟩
    rw [hres] at hup
    simp only [getSponsorEnrichmentForCompany, hrec, hstale, hconf, Option.isSome_some,
      Bool.not_true, Bool.and_false, Bool.true_and, Bool.false_eq_true, if_false, hres]
    rcases res with e | opt
    · exact hup
    · rcases opt with _ | synced
      · exact hup
      · exact hup

/-- C4 witness: the fresh record (synced at 0, clock at 0) is returned with
no state change; the same record at a clock 100 days later is stale and a
single remote request is issued. -/
theorem resolver_staleness_gate_witness :
    (findSponsorByNormalizedName [acmeSponsorRecord] (normalizeCompanyName "Acme Inc") =
       some acmeSponsorRecord ∧
     isSponsorStale noRemoteCtx.now (some acmeSponsorRecord) = false ∧
     getSponsorEnrichmentForCompany noRemoteCtx "Acme Inc" { sponsors := [acmeSponsorRecord] } =
       (.ok ⟨some acmeSponsorRecord,
          (extractMetadata (some acmeSponsorRecord)).bind (·.landingClub)⟩,
        { sponsors := [acmeSponsorRecord] })) ∧
    (isSponsorStale emptyRemoteCtx.now (some acmeSponsorRecord) = true ∧
     emptyRemoteCtx.configured = true ∧
     ((getSponsorEnrichmentForCompany emptyRemoteCtx "Acme Inc"
        { sponsors := [acmeSponsorRecord] }).2).remoteCalls = 0 + 1) :=
  ⟨⟨by decide, by decide,
    (resolver_staleness_gate noRemoteCtx "Acme Inc" { sponsors := [acmeSponsorRecord] }).1
      acmeSponsorRecord (by decide) (by decide)⟩,
   by decide, rfl,
   (resolver_staleness_gate emptyRemoteCtx "Acme Inc" { sponsors := [acmeSponsorRecord] }).2
     acmeSponsorRecord (by decide) (by decide) rfl (by decide)⟩

/-! ## Claim C3 -/

theorem getLandingClubSponsor_calls_le (ctx : RemoteCtx) (c : String) (st : VisaDb) :
    ((getLandingClubSponsor ctx c st).2).remoteCalls ≤ st.remoteCalls + 1 := by
  rw [getLandingClubSponsor, searchLandingClubSponsors]
  by_cases hq : normalizeCompanyName c = ""
  · rw [if_pos hq]
    exact Nat.le_add_right _ _
  · rw [if_neg hq]
    rcases ctx.response (normalizeCompanyName c) with e | entries
    · exact le_refl _
    · dsimp only
      split
      · exact le_refl _
      · split <;> exact le_refl _

theorem upsert_calls_le (ctx : RemoteCtx) (c : String) (st : VisaDb) :
    ((upsertSponsorFromLandingClub ctx c st).2).remoteCalls ≤ st.remoteCalls + 1 := by
  rw [upsertSponsorFromLandingClub]
  by_cases hconf : ctx.configured
  · rw [hconf]
    simp only [Bool.not_true, Bool.false_eq_true, if_false]
    have hg := getLandingClubSponsor_calls_le ctx c st
    rcases hres : getLandingClubSponsor ctx c st with ⟨res, st1⟩
    rw [hres] at hg
    rcases res with e | opt
    · exact hg
    · rcases opt with _ | lc
      · exact hg
      · dsimp only
        split
        · exact hg
        · exact hg
  · have hconf' : ctx.configured = false := by simpa using hconf
    rw [hconf']
    exact Nat.le_add_right _ _

theorem enrichLoop_calls_le {α : Type} (ctx : RemoteCtx) :
    ∀ (groups : List (String × List (JobRow α)))
      (sponsorsBy : List (String × VisaSponsorRecord)) (budget : Nat)
      (acc : List (String × Option SponsorSummary)) (st : VisaDb),
      ((enrichLoop ctx groups sponsorsBy budget acc st).2).remoteCalls ≤
        st.remoteCalls + budget := by
  intro groups
  induction groups with
  | nil =>
    intro sponsorsBy budget acc st
    exact Nat.le_add_right _ _
  | cons g restGroups ih =>
    intro sponsorsBy budget acc st
    rcases g with ⟨normalized, jobsForCompany⟩
    rw [enrichLoop]
    by_cases hneed : (((getAssoc sponsorsBy normalized).isNone ||
        isSponsorStale ctx.now (getAssoc sponsorsBy normalized)) &&
        ctx.configured && decide (budget > 0)) = true
    · rw [if_pos hneed]
      have hbudget : 0 < budget := by
        have := (Bool.and_eq_true _ _).mp hneed
        exact of_decide_eq_true this.2
      have hup := upsert_calls_le ctx
        ((jobsForCompany.head?.map (·.company)).getD "") st
      rcases hres : upsertSponsorFromLandingClub ctx
          ((jobsForCompany.head?.map (·.company)).getD "") st with ⟨res, st1⟩
      rw [hres] at hup
      rw [hres]
      rcases res with e | synced
      · calc st1.remoteCalls ≤ st.remoteCalls + 1 := hup
          _ ≤ st.remoteCalls + budget := Nat.add_le_add_left hbudget _
      · dsimp only
        calc ((enrichLoop ctx restGroups _ (budget - 1) _ st1).2).remoteCalls
            ≤ st1.remoteCalls + (budget - 1) := ih _ _ _ _
          _ ≤ (st.remoteCalls + 1) + (budget - 1) := Nat.add_le_add_right hup _
          _ = st.remoteCalls + budget := by omega
    · rw [if_neg hneed]
      exact ih _ _ _ _

/-- C3: (a) an enrichment batch issues at most `REMOTE_SYNC_LIMIT_PER_REQUEST = 5`
remote requests however many companies it spans; (b) a company group whose
remote guard (no local record or stale, provider configured, budget left)
is false is processed with no remote attempt, no budget change and no state
change; (c) when the guard holds, the group performs the remote upsert and
the loop continues with the budget decremented by one whatever that
attempt returned (a candidate, no candidate, or nothing usable). -/
theorem enrich_remote_budget :
    (∀ (α : Type) (ctx : RemoteCtx) (jobRows : List (JobRow α)) (st : VisaDb),
      ((enrichJobsWithSponsors ctx jobRows st).2).remoteCalls ≤
        st.remoteCalls + REMOTE_SYNC_LIMIT_PER_REQUEST) ∧
    (∀ (α : Type) (ctx : RemoteCtx) (normalized : String) (jobsForCompany : List (JobRow α))
      (restGroups : List (String × List (JobRow α)))
      (sponsorsBy : List (String × VisaSponsorRecord)) (budget : Nat)
      (acc : List (String × Option SponsorSummary)) (st : VisaDb),
      (((getAssoc sponsorsBy normalized).isNone ||
        isSponsorStale ctx.now (getAssoc sponsorsBy normalized)) &&
        ctx.configured && decide (budget > 0)) = false →
      enrichLoop ctx ((normalized, jobsForCompany) :: restGroups) sponsorsBy budget acc st =
        enrichLoop ctx restGroups sponsorsBy budget
          (acc ++ jobsForCompany.map (fun j => (j.id,
            buildSponsorSummary (getAssoc sponsorsBy normalized)
              ((extractMetadata (getAssoc sponsorsBy normalized)).bind (·.landingClub))))) st) ∧
    (∀ (α : Type) (ctx : RemoteCtx) (normalized : String) (jobsForCompany : List (JobRow α))
      (restGroups : List (String × List (JobRow α)))
      (sponsorsBy : List (String × VisaSponsorRecord)) (budget : Nat)
      (acc : List (String × Option SponsorSummary)) (st st1 : VisaDb)
      (synced : Option SponsorEnrichment),
      (((getAssoc sponsorsBy normalized).isNone ||
        isSponsorStale ctx.now (getAssoc sponsorsBy normalized)) &&
        ctx.configured && decide (budget > 0)) = true →
      upsertSponsorFromLandingClub ctx
        ((jobsForCompany.head?.map (·.company)).getD "") st = (.ok synced, st1) →
      enrichLoop ctx ((normalized, jobsForCompany) :: restGroups) sponsorsBy budget acc st =
        enrichLoop ctx restGroups
          (match synced.bind (·.sponsor) with
            | some rec1 => setAssoc sponsorsBy normalized rec1
            | none => sponsorsBy)
          (budget - 1)
          (acc ++ jobsForCompany.map (fun j => (j.id,
            buildSponsorSummary
              (if (synced.bind (·.sponsor)).isSome then synced.bind (·.sponsor)
               else getAssoc sponsorsBy normalized)
              ((extractMetadata
                (if (synced.bind (·.sponsor)).isSome then synced.bind (·.sponsor)
                 else getAssoc sponsorsBy normalized)).bind (·.landingClub)))))
          st1) := by
  refine ⟨?_, ?_, ?_⟩
  · intro α ctx jobRows st
    rw [enrichJobsWithSponsors]
    by_cases hempty : jobRows.isEmpty = true
    · rw [if_pos hempty]
      exact Nat.le_add_right _ _
    · rw [if_neg hempty]
      by_cases hnames : ((groupByNormalized jobRows).map (·.1)).isEmpty = true
      · rw [if_pos hnames]
        exact Nat.le_add_right _ _
      · rw [if_neg hnames]
        dsimp only
        have hloop := enrichLoop_calls_le ctx (groupByNormalized jobRows)
          ((st.sponsors.filter (fun r =>
            ((groupByNormalized jobRows).map (·.1)).contains r.normalizedName)).foldl
            (fun m s => setAssoc m s.normalizedName s) [])
          REMOTE_SYNC_LIMIT_PER_REQUEST [] st
        rcases hres : enrichLoop ctx (groupByNormalized jobRows) _
            REMOTE_SYNC_LIMIT_PER_REQUEST [] st with ⟨res, st1⟩
        rw [hres] at hloop
        rcases res with e | assignments
        · exact hloop
        · exact hloop
  · intro α ctx normalized jobsForCompany restGroups sponsorsBy budget acc st hguard
    rw [enrichLoop, if_neg (by rw [hguard]; simp)]
  · intro α ctx normalized jobsForCompany restGroups sponsorsBy budget acc st st1 synced
      hguard hres
    rw [enrichLoop, if_pos hguard, hres]

/-- C3 witness: a batch of 7 distinct uncached companies issues exactly 5
remote requests (within the budget bound of the theorem); a concrete group
with the provider unconfigured is processed without any remote attempt; a
concrete group under guard with a no-candidate remote outcome still has its
budget decremented from 5 to 4. -/
theorem enrich_remote_budget_witness :
    (((enrichJobsWithSponsors emptyRemoteCtx sevenCompanyRows {}).2).remoteCalls ≤
      ({} : VisaDb).remoteCalls + REMOTE_SYNC_LIMIT_PER_REQUEST ∧
     ((enrichJobsWithSponsors emptyRemoteCtx sevenCompanyRows {}).2).remoteCalls = 5) ∧
    ((((getAssoc ([] : List (String × VisaSponsorRecord)) "c1").isNone ||
        isSponsorStale noRemoteCtx.now
          (getAssoc ([] : List (String × VisaSponsorRecord)) "c1")) &&
        noRemoteCtx.configured && decide ((5 : Nat) > 0)) = false ∧
     enrichLoop noRemoteCtx [("c1", [(⟨"1", "c1", none, ()⟩ : JobRow Unit)])]
         ([] : List (String × VisaSponsorRecord)) 5
         ([] : List (String × Option SponsorSummary)) {} =
       enrichLoop noRemoteCtx ([] : List (String × List (JobRow Unit)))
         ([] : List (String × VisaSponsorRecord)) 5
         (([] : List (String × Option SponsorSummary)) ++
           [(⟨"1", "c1", none, ()⟩ : JobRow Unit)].map (fun j => (j.id,
             buildSponsorSummary (getAssoc ([] : List (String × VisaSponsorRecord)) "c1")
               ((extractMetadata
                 (getAssoc ([] : List (String × VisaSponsorRecord)) "c1")).bind
                 (·.landingClub))))) {}) ∧
    ((((getAssoc ([] : List (String × VisaSponsorRecord)) "c1").isNone ||
        isSponsorStale emptyRemoteCtx.now
          (getAssoc ([] : List (String × VisaSponsorRecord)) "c1")) &&
        emptyRemoteCtx.configured && decide ((5 : Nat) > 0)) = true ∧
     upsertSponsorFromLandingClub emptyRemoteCtx "c1" {} =
       (.ok none, { remoteCalls := 1 }) ∧
     enrichLoop emptyRemoteCtx [("c1", [(⟨"1", "c1", none, ()⟩ : JobRow Unit)])]
         ([] : List (String × VisaSponsorRecord)) 5
         ([] : List (String × Option SponsorSummary)) {} =
       enrichLoop emptyRemoteCtx ([] : List (String × List (JobRow Unit)))
         ([] : List (String × VisaSponsorRecord))
         (5 - 1)
         (([] : List (String × Option SponsorSummary)) ++
           [(⟨"1", "c1", none, ()⟩ : JobRow Unit)].map (fun j => (j.id,
             buildSponsorSummary
               (if ((none : Option SponsorEnrichment).bind (·.sponsor)).isSome then
                 (none : Option SponsorEnrichment).bind (·.sponsor)
                else getAssoc ([] : List (String × VisaSponsorRecord)) "c1")
               ((extractMetadata
                 (if ((none : Option SponsorEnrichment).bind (·.sponsor)).isSome then
                   (none : Option SponsorEnrichment).bind (·.sponsor)
                  else getAssoc ([] : List (String × VisaSponsorRecord)) "c1")).bind
                 (·.landingClub)))))
         { remoteCalls := 1 }) :=
  ⟨⟨enrich_remote_budget.1 Unit emptyRemoteCtx sevenCompanyRows {}, by decide⟩,
   ⟨by decide,
    enrich_remote_budget.2.1 Unit noRemoteCtx "c1" [⟨"1", "c1", none, ()⟩] [] [] 5 [] {}
      (by decide)⟩,
   ⟨by decide, by decide,
    enrich_remote_budget.2.2 Unit emptyRemoteCtx "c1" [⟨"1", "c1", none, ()⟩] [] [] 5 [] {}
      { remoteCalls := 1 } none (by decide) (by decide)⟩⟩

/-! ## Claim C9 -/

theorem insertGroup_ne_nil {α : Type} (key : String) (j : JobRow α)
    (acc : List (String × List (JobRow α))) : insertGroup key j acc ≠ [] := by
  cases acc with
  | nil => simp [insertGroup]
  | cons g t =>
    rcases g with ⟨k, js⟩
    rw [insertGroup]
    split <;> simp

theorem insertGroup_mem {α : Type} {key : String} {j x : JobRow α} :
    ∀ {acc : List (String × List (JobRow α))} {g : String × List (JobRow α)},
      g ∈ insertGroup key j acc → x ∈ g.2 →
      (∃ g' ∈ acc, x ∈ g'.2) ∨ x = j := by
  intro acc
  induction acc with
  | nil =>
    intro g hg hx
    simp only [insertGroup, List.mem_singleton] at hg
    subst hg
    simp only [List.mem_singleton] at hx
    exact Or.inr hx
  | cons p t ih =>
    intro g hg hx
    rcases p with ⟨k, js⟩
    rw [insertGroup] at hg
    by_cases hk : k = key
    · rw [if_pos hk] at hg
      rcases List.mem_cons.mp hg with rfl | hg'
      · rcases List.mem_append.mp hx with h | h
        · exact Or.inl ⟨(k, js), List.mem_cons_self _ _, h⟩
        · simp only [List.mem_singleton] at h
          exact Or.inr h
      · exact Or.inl ⟨g, List.mem_cons_of_mem _ hg', hx⟩
    · rw [if_neg hk] at hg
      rcases List.mem_cons.mp hg with rfl | hg'
      · exact Or.inl ⟨(k, js), List.mem_cons_self _ _, hx⟩
      · rcases ih hg' hx with ⟨g', hg'', hx'⟩ | h
        · exact Or.inl ⟨g', List.mem_cons_of_mem _ hg'', hx'⟩
        · exact Or.inr h

theorem groupByNormalized_foldl_mem {α : Type} :
    ∀ (rows : List (JobRow α)) (acc : List (String × List (JobRow α)))
      (g : String × List (JobRow α)) (x : JobRow α),
      g ∈ rows.foldl
        (fun acc j =>
          if j.company = "" then acc
          else
            let n := normalizeCompanyName j.company
            if n = "" then acc else insertGroup n j acc) acc →
      x ∈ g.2 →
      (∃ g' ∈ acc, x ∈ g'.2) ∨
        (x ∈ rows ∧ ¬(x.company = "" ∨ normalizeCompanyName x.company = "")) := by
  intro rows
  induction rows with
  | nil =>
    intro acc g x hg hx
    exact Or.inl ⟨g, hg, hx⟩
  | cons j t ih =>
    intro acc g x hg hx
    rw [List.foldl_cons] at hg
    by_cases hc : j.company = ""
    · rw [if_pos hc] at hg
      rcases ih _ _ _ hg hx with h | ⟨h1, h2⟩
      · exact Or.inl h
      · exact Or.inr ⟨List.mem_cons_of_mem _ h1, h2⟩
    · rw [if_neg hc] at hg
      by_cases hn : normalizeCompanyName j.company = ""
      · rw [if_pos hn] at hg
        rcases ih _ _ _ hg hx with h | ⟨h1, h2⟩
        · exact Or.inl h
        · exact Or.inr ⟨List.mem_cons_of_mem _ h1, h2⟩
      · rw [if_neg hn] at hg
        rcases ih _ _ _ hg hx with ⟨g', hg', hx'⟩ | ⟨h1, h2⟩
        · rcases insertGroup_mem hg' hx' with h | rfl
          · exact Or.inl h
          · exact Or.inr ⟨List.mem_cons_self _ _, by simp [hc, hn]⟩
        · exact Or.inr ⟨List.mem_cons_of_mem _ h1, h2⟩

theorem groupByNormalized_mem {α : Type} {rows : List (JobRow α)}
    {g : String × List (JobRow α)} {x : JobRow α}
    (hg : g ∈ groupByNormalized rows) (hx : x ∈ g.2) :
    x ∈ rows ∧ ¬(x.company = "" ∨ normalizeCompanyName x.company = "") := by
  rcases groupByNormalized_foldl_mem rows [] g x hg hx with ⟨g', hg', _⟩ | h
  · cases hg'
  · exact h

theorem groupByNormalized_nil_of_unusable {α : Type} :
    ∀ {rows : List (JobRow α)},
      (∀ j ∈ rows, j.company = "" ∨ normalizeCompanyName j.company = "") →
      groupByNormalized rows = [] := by
  intro rows
  induction rows with
  | nil => intro _; rfl
  | cons j t ih =>
    intro h
    rcases h j (List.mem_cons_self _ _) with hc | hn
    · rw [groupByNormalized, List.foldl_cons, if_pos hc]
      exact ih (fun x hx => h x (List.mem_cons_of_mem _ hx))
    · rw [groupByNormalized, List.foldl_cons]
      by_cases hc : j.company = ""
      · rw [if_pos hc]
        exact ih (fun x hx => h x (List.mem_cons_of_mem _ hx))
      · rw [if_neg hc, if_pos hn]
        exact ih (fun x hx => h x (List.mem_cons_of_mem _ hx))

theorem groupByNormalized_foldl_ne_nil {α : Type} :
    ∀ (rows : List (JobRow α)) (acc : List (String × List (JobRow α))), acc ≠ [] →
      rows.foldl
        (fun acc j =>
          if j.company = "" then acc
          else
            let n := normalizeCompanyName j.company
            if n = "" then acc else insertGroup n j acc) acc ≠ [] := by
  intro rows
  induction rows with
  | nil => intro acc h; exact h
  | cons j t ih =>
    intro acc h
    rw [List.foldl_cons]
    by_cases hc : j.company = ""
    · rw [if_pos hc]; exact ih acc h
    · rw [if_neg hc]
      by_cases hn : normalizeCompanyName j.company = ""
      · rw [if_pos hn]; exact ih acc h
      · rw [if_neg hn]
        exact ih _ (insertGroup_ne_nil _ _ _)

theorem groupByNormalized_ne_nil_of_usable {α : Type} :
    ∀ {rows : List (JobRow α)},
      (∃ j ∈ rows, ¬(j.company = "" ∨ normalizeCompanyName j.company = "")) →
      groupByNormalized rows ≠ [] := by
  intro rows
  induction rows with
  | nil => intro ⟨j, hj, _⟩; cases hj
  | cons j t ih =>
    intro ⟨x, hx, husable⟩
    rw [groupByNormalized, List.foldl_cons]
    rcases List.mem_cons.mp hx with rfl | hx'
    · rw [if_neg (fun hc => husable (Or.inl hc)),
        if_neg (fun hn => husable (Or.inr hn))]
      exact groupByNormalized_foldl_ne_nil t _ (insertGroup_ne_nil _ _ _)
    · by_cases hc : x.company = "" ∨ normalizeCompanyName x.company = ""
      · exact absurd hc husable
      · have hne : groupByNormalized t ≠ [] := ih ⟨x, hx', husable⟩
        by_cases hjc : j.company = ""
        · rw [if_pos hjc]; exact hne
        · rw [if_neg hjc]
          by_cases hjn : normalizeCompanyName j.company = ""
          · rw [if_pos hjn]; exact hne
          · rw [if_neg hjn]
            exact groupByNormalized_foldl_ne_nil t _ (insertGroup_ne_nil _ _ _)

theorem getAssoc_mem {β : Type} {m : List (String × β)} {k : String} {v : β}
    (h : getAssoc m k = some v) : ∃ p ∈ m, p.1 = k := by
  rw [getAssoc] at h
  rcases hf : m.reverse.find? (fun p => p.1 = k) with _ | p
  · rw [hf] at h; cases h
  · have hmem := List.mem_of_find?_eq_some hf
    have hpred := List.find?_some hf
    rw [List.mem_reverse] at hmem
    exact ⟨p, hmem, by simpa using hpred⟩

theorem enrichLoop_keys {α : Type} (ctx : RemoteCtx) :
    ∀ (groups : List (String × List (JobRow α)))
      (sponsorsBy : List (String × VisaSponsorRecord)) (budget : Nat)
      (acc : List (String × Option SponsorSummary)) (st : VisaDb)
      (assignments : List (String × Option SponsorSummary)) (st1 : VisaDb),
      enrichLoop ctx groups sponsorsBy budget acc st = (.ok assignments, st1) →
      ∀ p ∈ assignments, p.1 ∈ acc.map (·.1) ∨
        ∃ g ∈ groups, ∃ x ∈ g.2, p.1 = x.id := by
  intro groups
  induction groups with
  | nil =>
    intro sponsorsBy budget acc st assignments st1 heq p hp
    rw [enrichLoop] at heq
    cases heq
    exact Or.inl (List.mem_map_of_mem _ hp)
  | cons g restGroups ih =>
    intro sponsorsBy budget acc st assignments st1 heq p hp
    rcases g with ⟨normalized, jobsForCompany⟩
    rw [enrichLoop] at heq
    have hstep : ∀ (sponsorsBy1 : List (String × VisaSponsorRecord)) (budget1 : Nat)
        (summary : Option SponsorSummary) (st2 : VisaDb),
        enrichLoop ctx restGroups sponsorsBy1 budget1
          (acc ++ jobsForCompany.map (fun j => (j.id, summary))) st2 =
          (.ok assignments, st1) →
        p.1 ∈ acc.map (·.1) ∨ ∃ g ∈ (normalized, jobsForCompany) :: restGroups,
          ∃ x ∈ g.2, p.1 = x.id := by
      intro sponsorsBy1 budget1 summary st2 hrec
      rcases ih sponsorsBy1 budget1 _ st2 assignments st1 hrec p hp with hacc | ⟨g', hg', hx⟩
      · rw [List.map_append, List.mem_append] at hacc
        rcases hacc with h | h
        · exact Or.inl h
        · simp only [List.map_map, List.mem_map] at h
          obtain ⟨x, hx, hpid⟩ := h
          exact Or.inr ⟨(normalized, jobsForCompany), List.mem_cons_self _ _, x, hx, hpid.symm⟩
      · exact Or.inr ⟨g', List.mem_cons_of_mem _ hg', hx⟩
    by_cases hneed : (((getAssoc sponsorsBy normalized).isNone ||
        isSponsorStale ctx.now (getAssoc sponsorsBy normalized)) &&
        ctx.configured && decide (budget > 0)) = true
    · rw [if_pos hneed] at heq
      rcases hres : upsertSponsorFromLandingClub ctx
          ((jobsForCompany.head?.map (·.company)).getD "") st with ⟨res, st2⟩
      rw [hres] at heq
      rcases res with e | synced
      · cases heq
      · exact hstep _ _ _ _ heq
    · rw [if_neg hneed] at heq
      exact hstep _ _ _ _ heq

theorem enrich_cases {α : Type} (ctx : RemoteCtx) (jobRows : List (JobRow α)) (st : VisaDb)
    (out : List (JobRow α)) (st1 : VisaDb)
    (heq : enrichJobsWithSponsors ctx jobRows st = (.ok out, st1)) :
    (out = jobRows ∧ st1 = st ∧ (jobRows = [] ∨ groupByNormalized jobRows = [])) ∨
    (groupByNormalized jobRows ≠ [] ∧
      ∃ assignments,
        enrichLoop ctx (groupByNormalized jobRows)
          ((st.sponsors.filter (fun r =>
            ((groupByNormalized jobRows).map (·.1)).contains r.normalizedName)).foldl
            (fun m s => setAssoc m s.normalizedName s) [])
          REMOTE_SYNC_LIMIT_PER_REQUEST [] st = (.ok assignments, st1) ∧
        out = jobRows.map (fun j =>
          { j with visaSponsor := some ((getAssoc assignments j.id).getD none) })) := by
  rw [enrichJobsWithSponsors] at heq
  by_cases hempty : jobRows.isEmpty = true
  · rw [if_pos hempty] at heq
    have h1 : jobRows = out := by simpa using congrArg Prod.fst heq
    have h2 : st = st1 := congrArg Prod.snd heq
    exact Or.inl ⟨h1.symm, h2.symm, Or.inl (List.isEmpty_iff.mp hempty)⟩
  · rw [if_neg hempty] at heq
    by_cases hnames : ((groupByNormalized jobRows).map (·.1)).isEmpty = true
    · rw [if_pos hnames] at heq
      have h1 : jobRows = out := by simpa using congrArg Prod.fst heq
      have h2 : st = st1 := congrArg Prod.snd heq
      have hnil : groupByNormalized jobRows = [] := by
        have := List.isEmpty_iff.mp hnames
        exact List.map_eq_nil_iff.mp this
      exact Or.inl ⟨h1.symm, h2.symm, Or.inr hnil⟩
    · rw [if_neg hnames] at heq
      have hne : groupByNormalized jobRows ≠ [] := by
        intro hnil
        rw [hnil] at hnames
        exact hnames rfl
      dsimp only at heq
      rcases hres : enrichLoop ctx (groupByNormalized jobRows)
          ((st.sponsors.filter (fun r =>
            ((groupByNormalized jobRows).map (·.1)).contains r.normalizedName)).foldl
            (fun m s => setAssoc m s.normalizedName s) [])
          REMOTE_SYNC_LIMIT_PER_REQUEST [] st with ⟨res, st2⟩
      rw [hres] at heq
      rcases res with e | assignments
      · exfalso
        have := congrArg Prod.fst heq
        simp at this
      · have hout : out = jobRows.map (fun j =>
            { j with visaSponsor := some ((getAssoc assignments j.id).getD none) }) := by
          have := congrArg Prod.fst heq
          simp only [Except.ok.injEq] at this
          exact this.symm
        have hst : st2 = st1 := congrArg Prod.snd heq
        rw [hst] at hres
        exact Or.inr ⟨hne, assignments, hres, hout⟩

/-- C9 counterexample: a batch in which every posting lacks a usable
company name is returned by `enrichJobsWithSponsors` without the
`sponsorSummary` (`visaSponsor`) field attached at all — the field is
absent, not null. -/
theorem enrich_all_empty_batch_unaugmented :
    (enrichJobsWithSponsors noRemoteCtx [emptyCompanyRow] {}).1 = .ok [emptyCompanyRow] ∧
    emptyCompanyRow.company = "" ∧
    emptyCompanyRow.visaSponsor = none ∧
    emptyCompanyRow.visaSponsor ≠ some none := by
  refine ⟨by decide, rfl, rfl, by decide⟩

/-- C9 amended: enrichment returns the same postings in the same order with
all other fields unchanged; whenever the batch contains at least one
posting with a usable company name, every returned posting carries the
attached summary field (null for postings whose company is empty or
normalizes to nothing, given distinct posting ids); but a batch in which
*no* posting has a usable company name (or an empty batch) is returned
unmodified, with the field absent rather than null. -/
theorem enrich_attaches_summaries (α : Type) (ctx : RemoteCtx) (jobRows : List (JobRow α))
    (st : VisaDb) (out : List (JobRow α)) (st1 : VisaDb)
    (heq : enrichJobsWithSponsors ctx jobRows st = (.ok out, st1)) :
    out.map stripVisaSponsor = jobRows.map stripVisaSponsor ∧
    ((∀ j ∈ jobRows, j.company = "" ∨ normalizeCompanyName j.company = "") →
      out = jobRows ∧ st1 = st) ∧
    ((∃ j ∈ jobRows, ¬(j.company = "" ∨ normalizeCompanyName j.company = "")) →
      ∀ j ∈ out, j.visaSponsor.isSome = true) ∧
    ((jobRows.map (·.id)).Nodup →
      (∃ j ∈ jobRows, ¬(j.company = "" ∨ normalizeCompanyName j.company = "")) →
      ∀ j ∈ out, (j.company = "" ∨ normalizeCompanyName j.company = "") →
        j.visaSponsor = some none) := by
  rcases enrich_cases ctx jobRows st out st1 heq with
    ⟨ho, hs, hcase⟩ | ⟨hne, assignments, hloop, hout⟩
  · subst ho
    subst hs
    refine ⟨rfl, fun _ => ⟨rfl, rfl⟩, ?_, ?_⟩
    · intro hex j hj
      rcases hcase with hnil | hgnil
      · rw [hnil] at hj
        cases hj
      · exact absurd hgnil (groupByNormalized_ne_nil_of_usable hex)
    · intro _ hex j hj _
      rcases hcase with hnil | hgnil
      · rw [hnil] at hj
        cases hj
      · exact absurd hgnil (groupByNormalized_ne_nil_of_usable hex)
  · subst hout
    refine ⟨?_, ?_, ?_, ?_⟩
    · rw [List.map_map]
      exact List.map_congr_left (fun j _ => rfl)
    · intro hall
      exact absurd (groupByNormalized_nil_of_unusable hall) hne
    · intro _ j hj
      obtain ⟨j0, _, rfl⟩ := List.mem_map.mp hj
      rfl
    · intro hnd _ j hj hune
      obtain ⟨j0, hj0, rfl⟩ := List.mem_map.mp hj
      have hassign : getAssoc assignments j0.id = none := by
        rcases h : getAssoc assignments j0.id with _ | v
        · rfl
        · exfalso
          obtain ⟨p, hp, hpk⟩ := getAssoc_mem h
          rcases enrichLoop_keys ctx (groupByNormalized jobRows) _ _ _ _ _ _ hloop p hp with
            hacc | ⟨g, hg, x, hx, hpid⟩
          · simp at hacc
          · have hxmem := groupByNormalized_mem hg hx
            have hxid : x.id = j0.id := by rw [← hpid, hpk]
            have hxj0 : x = j0 :=
              List.inj_on_of_nodup_map hnd hxmem.1 hj0 hxid
            rw [hxj0] at hxmem
            exact hxmem.2 hune
      rw [hassign]
      rfl

/-- C9 amended, witness: a mixed batch (one empty-company posting, one
usable company) gets the field attached on every row, null for the
empty-company posting, with all other fields unchanged. -/
theorem enrich_attaches_summaries_witness :
    enrichJobsWithSponsors noRemoteCtx [emptyCompanyRow, acmeRow] {} =
      (.ok [enrichedEmptyCompanyRow, enrichedAcmeRow], {}) ∧
    [enrichedEmptyCompanyRow, enrichedAcmeRow].map stripVisaSponsor =
      [emptyCompanyRow, acmeRow].map stripVisaSponsor ∧
    (∀ j ∈ [enrichedEmptyCompanyRow, enrichedAcmeRow], j.visaSponsor.isSome = true) ∧
    enrichedEmptyCompanyRow.visaSponsor = some none :=
  have h := enrich_attaches_summaries Unit noRemoteCtx [emptyCompanyRow, acmeRow] {}
    [enrichedEmptyCompanyRow, enrichedAcmeRow] {} (by decide)
  ⟨by decide, h.1,
   h.2.2.1 ⟨acmeRow, by decide, by decide⟩,
   h.2.2.2 (by decide) ⟨acmeRow, by decide, by decide⟩ enrichedEmptyCompanyRow
     (by decide) (by decide)⟩

/-! ## Claim C6 -/

/-- C6 counterexample: with no query vector the SQL fetch is ordered by
`scrapedAt` descending, but `applyScoring` then re-sorts by composite
`matchScore`; for a database whose most recently scraped posting has an old
`postedAt`, the returned order is not last-scraped descending. -/
theorem search_fallback_not_chronological :
    chronoJobA.scrapedAt = some 2000 ∧
    chronoJobB.scrapedAt = some 1000 ∧
    searchJobsNoVector chronoCtx { jobs := [chronoJobA, chronoJobB] } =
      (.ok [scoredChronoB, scoredChronoA], { jobs := [chronoJobA, chronoJobB] }) ∧
    [scoredChronoB, scoredChronoA].map (·.id) ≠ [chronoJobA, chronoJobB].map (·.id) := by
  exact ⟨rfl, rfl, by decide, by decide⟩

/-- C6 amended: with no query text and no profile embedding, `searchJobs`
fetches the active postings in reverse-chronological `scrapedAt` order
(limit 50), enriches them, and returns them re-ranked by composite
`matchScore` descending computed with similarity component 0; every
returned posting's `similarity` is undefined. -/
theorem search_fallback_amended (ctx : RemoteCtx) (st : VisaDb)
    (out : List JobSearchResult) (st1 : VisaDb)
    (heq : searchJobsNoVector ctx st = (.ok out, st1)) :
    (∀ j ∈ out, j.rest.similarity = none) ∧
    out.Pairwise (fun a b => matchScoreKey b ≤ matchScoreKey a) ∧
    (∃ enriched,
      enrichJobsWithSponsors ctx
        ((((List.insertionSort (fun a b => scrapedAtDescB a b = true)
          (st.jobs.filter (fun j => j.isActive = some true))).drop 0).take 50).map
          toJobSearchResult) st = (.ok enriched, st1) ∧
      out = applyScoring ctx.now enriched) := by
  rw [searchJobsNoVector] at heq
  rcases hres : enrichJobsWithSponsors ctx
      ((((List.insertionSort (fun a b => scrapedAtDescB a b = true)
        (st.jobs.filter (fun j => j.isActive = some true))).drop 0).take 50).map
        toJobSearchResult) st with ⟨res, st2⟩
  rw [hres] at heq
  rcases res with e | enriched
  · exfalso
    have := congrArg Prod.fst heq
    simp at this
  · have hout : out = applyScoring ctx.now enriched := by
      have := congrArg Prod.fst heq
      simp only [Except.ok.injEq] at this
      exact this.symm
    have hst : st2 = st1 := congrArg Prod.snd heq
    rw [hst] at hres
    have hframe := (enrich_attaches_summaries JobSearchFields ctx _ st enriched st1 hres).1
    refine ⟨?_, ?_, enriched, by rw [hst], hout⟩
    · intro j hj
      rw [hout, applyScoring] at hj
      have hj2 := (List.perm_insertionSort
        (fun a b => matchScoreKey b ≤ matchScoreKey a)
        (enriched.map (scorePosting ctx.now))).mem_iff.mp hj
      obtain ⟨j1, hj1, rfl⟩ := List.mem_map.mp hj2
      show j1.rest.similarity = none
      have hstripmem : stripVisaSponsor j1 ∈ enriched.map stripVisaSponsor :=
        List.mem_map_of_mem _ hj1
      rw [hframe] at hstripmem
      obtain ⟨c, hc, hcstrip⟩ := List.mem_map.mp hstripmem
      obtain ⟨c0, _, rfl⟩ := List.mem_map.mp hc
      have h2 := congrArg JobRow.rest hcstrip
      have h3 : (toJobSearchResult c0).rest = j1.rest := h2
      rw [← h3]
      rfl
    · rw [hout, applyScoring]
      haveI : IsTotal JobSearchResult (fun a b => matchScoreKey b ≤ matchScoreKey a) :=
        ⟨fun a b => le_total (matchScoreKey b) (matchScoreKey a)⟩
      haveI : IsTrans JobSearchResult (fun a b => matchScoreKey b ≤ matchScoreKey a) :=
        ⟨fun _ _ _ hab hbc => le_trans hbc hab⟩
      exact List.sorted_insertionSort _ _

/-- C6 amended, witness: the two-posting database evaluates as the theorem
states, with similarity absent everywhere and the output ordered by
`matchScore`. -/
theorem search_fallback_amended_witness :
    searchJobsNoVector chronoCtx { jobs := [chronoJobA, chronoJobB] } =
      (.ok [scoredChronoB, scoredChronoA], { jobs := [chronoJobA, chronoJobB] }) ∧
    ((∀ j ∈ [scoredChronoB, scoredChronoA], j.rest.similarity = none) ∧
     [scoredChronoB, scoredChronoA].Pairwise
       (fun a b => matchScoreKey b ≤ matchScoreKey a) ∧
     (∃ enriched,
       enrichJobsWithSponsors chronoCtx
         ((((List.insertionSort (fun a b => scrapedAtDescB a b = true)
           ((({ jobs := [chronoJobA, chronoJobB] } : VisaDb).jobs).filter
             (fun j => j.isActive = some true))).drop 0).take 50).map
           toJobSearchResult) { jobs := [chronoJobA, chronoJobB] } =
         (.ok enriched, { jobs := [chronoJobA, chronoJobB] }) ∧
       [scoredChronoB, scoredChronoA] = applyScoring chronoCtx.now enriched)) :=
  ⟨by decide,
   search_fallback_amended chronoCtx { jobs := [chronoJobA, chronoJobB] }
     [scoredChronoB, scoredChronoA] { jobs := [chronoJobA, chronoJobB] } (by decide)⟩

/-! ## Claim C10 -/

theorem statusFromConfidence_spec (confidence : Option Int) :
    (statusFromConfidence confidence = "sponsor_verified" ↔
      ∃ c, confidence = some c ∧ c ≠ 0 ∧ c ≥ 75) ∧
    (statusFromConfidence confidence = "likely_sponsor" ↔
      ∃ c, confidence = some c ∧ c ≠ 0 ∧ c < 75) ∧
    (statusFromConfidence confidence = "unknown" ↔
      confidence = none ∨ confidence = some 0) := by
  cases confidence with
  | none =>
    refine ⟨?_, ?_, ?_⟩
    · simp [statusFromConfidence]
    · simp [statusFromConfidence]
    · simp [statusFromConfidence]
  | some c =>
    by_cases hc0 : c = 0
    · subst hc0
      refine ⟨?_, ?_, ?_⟩
      · simp [statusFromConfidence]
      · simp [statusFromConfidence]
      · simp [statusFromConfidence]
    · by_cases hc75 : c ≥ 75
      · refine ⟨?_, ?_, ?_⟩
        · simp only [statusFromConfidence, if_neg hc0, if_pos hc75]
          simp only [true_iff]
          exact ⟨c, rfl, hc0, hc75⟩
        · simp only [statusFromConfidence, if_neg hc0, if_pos hc75]
          constructor
          · intro h; exact absurd h (by decide)
          · rintro ⟨c', hc', _, hlt⟩
            cases hc'
            omega
        · simp only [statusFromConfidence, if_neg hc0, if_pos hc75]
          constructor
          · intro h; exact absurd h (by decide)
          · rintro (h | h)
            · cases h
            · cases h; exact absurd rfl hc0
      · refine ⟨?_, ?_, ?_⟩
        · simp only [statusFromConfidence, if_neg hc0, if_neg hc75]
          constructor
          · intro h; exact absurd h (by decide)
          · rintro ⟨c', hc', _, hge⟩
            cases hc'
            omega
        · simp only [statusFromConfidence, if_neg hc0, if_neg hc75]
          simp only [true_iff]
          exact ⟨c, rfl, hc0, by omega⟩
        · simp only [statusFromConfidence, if_neg hc0, if_neg hc75]
          constructor
          · intro h; exact absurd h (by decide)
          · rintro (h | h)
            · cases h
            · cases h; exact absurd rfl hc0

/-- C10: when `linkJobToSponsor` resolves a sponsor, the matching job row is
updated with the sponsor link, the sponsor's confidence copied verbatim,
and the visa status derived from the confidence — `sponsor_verified`
exactly when the confidence is non-null, non-zero and at least 75,
`likely_sponsor` when non-zero but below 75, `unknown` when null or 0;
when no sponsor resolves, the jobs table is left entirely unchanged. -/
theorem linkJobToSponsor_spec (ctx : RemoteCtx) (jobId companyName : String) (st : VisaDb)
    (enr : SponsorEnrichment) (st1 : VisaDb)
    (henr : getSponsorEnrichmentForCompany ctx companyName st = (.ok enr, st1)) :
    (enr.sponsor = none → linkJobToSponsor ctx jobId companyName st = (.ok (), st1)) ∧
    (∀ sp, enr.sponsor = some sp →
      linkJobToSponsor ctx jobId companyName st =
        (.ok (), { st1 with jobs := st1.jobs.map (fun j =>
          if j.id = jobId then
            { j with
                visaSponsorId := some sp.id
                sponsorshipConfidence := sp.sponsorshipConfidence
                visaStatus := some (statusFromConfidence sp.sponsorshipConfidence)
                visaNotes := sp.notes.orElse
                  (fun _ => enr.landingClub.bind (fun lc => lc.latestUpdate.map (·.summary))) }
          else j) }) ∧
      (statusFromConfidence sp.sponsorshipConfidence = "sponsor_verified" ↔
        ∃ c, sp.sponsorshipConfidence = some c ∧ c ≠ 0 ∧ c ≥ 75) ∧
      (statusFromConfidence sp.sponsorshipConfidence = "likely_sponsor" ↔
        ∃ c, sp.sponsorshipConfidence = some c ∧ c ≠ 0 ∧ c < 75) ∧
      (statusFromConfidence sp.sponsorshipConfidence = "unknown" ↔
        sp.sponsorshipConfidence = none ∨ sp.sponsorshipConfidence = some 0)) := by
  obtain ⟨spon, lc⟩ := enr
  constructor
  · intro hnone
    dsimp only at hnone
    subst hnone
    rw [linkJobToSponsor, henr]
  · intro sp hsp
    dsimp only at hsp
    subst hsp
    refine ⟨?_, statusFromConfidence_spec sp.sponsorshipConfidence⟩
    rw [linkJobToSponsor, henr]

/-- C10 witness: linking a job against the fresh fixture record (confidence
90) marks it `sponsor_verified` and copies the confidence; the status
characterization holds at confidence 90. -/
theorem linkJobToSponsor_spec_witness :
    getSponsorEnrichmentForCompany noRemoteCtx "Acme Inc"
      { sponsors := [acmeSponsorRecord], jobs := [{ id := "j1" }] } =
      (.ok ⟨some acmeSponsorRecord, some acmeLandingClub⟩,
       { sponsors := [acmeSponsorRecord], jobs := [{ id := "j1" }] }) ∧
    statusFromConfidence acmeSponsorRecord.sponsorshipConfidence = "sponsor_verified" ∧
    linkJobToSponsor noRemoteCtx "j1" "Acme Inc"
      { sponsors := [acmeSponsorRecord], jobs := [{ id := "j1" }] } =
      (.ok (),
       { sponsors := [acmeSponsorRecord],
         jobs := ([{ id := "j1" }] : List JobsTableRow).map (fun j =>
           if j.id = "j1" then
             { j with
                 visaSponsorId := some acmeSponsorRecord.id
                 sponsorshipConfidence := acmeSponsorRecord.sponsorshipConfidence
                 visaStatus :=
                   some (statusFromConfidence acmeSponsorRecord.sponsorshipConfidence)
                 visaNotes := acmeSponsorRecord.notes.orElse
                   (fun _ => (some acmeLandingClub).bind
                     (fun lc => lc.latestUpdate.map (·.summary))) }
           else j) }) :=
  ⟨by decide, by decide,
   (linkJobToSponsor_spec noRemoteCtx "j1" "Acme Inc"
      { sponsors := [acmeSponsorRecord], jobs := [{ id := "j1" }] }
      ⟨some acmeSponsorRecord, some acmeLandingClub⟩
      { sponsors := [acmeSponsorRecord], jobs := [{ id := "j1" }] }
      (by decide)).2 acmeSponsorRecord rfl |>.1⟩
